import Mathlib

/-!
# The compile handler of `api/compile.go`

A shallow embedding of `mapFromTemplates` and of the `Compile` handler, and the
properties of the template index and of the compilation sequence proved on it.

Pointers to templates are addresses into an explicit heap, the Go map is a
finite association list with unique keys, the collaborators reached through
the gin context (database, source, compiler) are state-passing functions over
an arbitrary world state, and every collaborator call is logged in a trace.
-/

namespace Vela

/-! ## Data model -/

/-- The `yaml.Template` record: `Name` is the lookup key, the other fields are
carried along untouched. -/
structure Template where
  Name : String
  Source : String
  Format : String
  Type_ : String
deriving DecidableEq, Repr

/-- An address of a `yaml.Template` in memory. -/
abbrev Addr := Nat

/-- A `*yaml.Template`: `none` is the nil pointer, `some a` points at address `a`. -/
abbrev TemplatePtr := Option Addr

/-- The memory holding the templates: every non-nil pointer can be dereferenced. -/
abbrev Heap := Addr → Template

/-- A Go `map[string]*yaml.Template`: a finite table with at most one entry per key. -/
abbrev TemplateMap := List (String × TemplatePtr)

/-- A run-time panic of the Go program. -/
inductive Panic where
  | nilDereference
deriving DecidableEq, Repr

/-- The statement `m[k] = v` of Go: overwrite the entry at `k`, or add one. -/
def mapassign : TemplateMap → String → TemplatePtr → TemplateMap
  | [], k, v => [(k, v)]
  | (k', v') :: rest, k, v =>
    if k' = k then (k, v) :: rest else (k', v') :: mapassign rest k v

/-- The expression `v, ok := m[k]` of Go: `none` when the key is absent. -/
def mapaccess : TemplateMap → String → Option TemplatePtr
  | [], _ => none
  | (k', v') :: rest, k => if k' = k then some v' else mapaccess rest k

/-- The key set of a map. -/
def mapkeys (m : TemplateMap) : List String := m.map Prod.fst

/-- The body of the `range` loop of `mapFromTemplates`, `m[tmpl.Name] = tmpl`:
reading `tmpl.Name` through a nil pointer panics. The state is the map under
construction and the memory. -/
def mapFromTemplates.body (tmpl : TemplatePtr) (st : TemplateMap × Heap) :
    Except Panic (TemplateMap × Heap) :=
  match tmpl with
  | none => .error Panic.nilDereference
  | some a => .ok (mapassign st.1 (st.2 a).Name tmpl, st.2)

/-- The loop `for _, tmpl := range templates` of `mapFromTemplates`. -/
def mapFromTemplates.loop : List TemplatePtr → TemplateMap × Heap →
    Except Panic (TemplateMap × Heap)
  | [], st => .ok st
  | tmpl :: rest, st =>
    match mapFromTemplates.body tmpl st with
    | .error e => .error e
    | .ok st' => mapFromTemplates.loop rest st'

/-- The function `mapFromTemplates`: `m := make(map)`, the loop, `return m`.
The result is the returned map together with the memory after the call, or the
panic that ended the call. -/
def mapFromTemplates (h : Heap) (templates : List TemplatePtr) :
    Except Panic (TemplateMap × Heap) :=
  mapFromTemplates.loop templates ([], h)

/-! ## The handler and its collaborators -/

/-- A Go `error` value: a plain error, or the result of `fmt.Errorf` with a
`%w` verb, which keeps the formatted message and the wrapped error. -/
inductive GoError where
  | plain (msg : String)
  | wrapped (msg : String) (inner : GoError)
deriving DecidableEq, Repr

/-- The method `Error()`: the message of an error. -/
def GoError.Error : GoError → String
  | .plain msg => msg
  | .wrapped msg _ => msg

/-- The function `errors.Unwrap`: the wrapped error, when there is one. -/
def GoError.Unwrap : GoError → Option GoError
  | .plain _ => none
  | .wrapped _ inner => some inner

/-- The call `fmt.Errorf("<pre>: %w", err)`, with the part before the colon
already formatted. -/
def Errorf (pre : String) (err : GoError) : GoError :=
  .wrapped (pre ++ ": " ++ err.Error) err

/-- The fields of `library.Repo` read by the handler. -/
structure Repo where
  UserID : Int
  Org : String
  Name : String
  FullName : String
deriving DecidableEq, Repr

/-- The owner record `library.User`. -/
structure User where
  ID : Int
  Name : String
deriving DecidableEq, Repr

/-- The platform metadata `types.Metadata` stored in the context. -/
structure Metadata where
  Database : String
  Queue : String
  Source : String
  Vela : String
deriving DecidableEq, Repr

/-- A `yaml.Step`; `Template` names the template a step refers to, if any. -/
structure Step where
  Name : String
  Image : String
  Commands : List String
  Template : Option String
deriving DecidableEq, Repr

/-- A `yaml.Stage`. -/
structure Stage where
  Name : String
  Needs : List String
  Steps : List Step
deriving DecidableEq, Repr

/-- The pipeline document `yaml.Build`. -/
structure Build where
  Version : String
  Metadata : Bool
  Stages : List Stage
  Steps : List Step
  Templates : List TemplatePtr
deriving DecidableEq, Repr

/-- The state outside the handler: the template memory and the state `σ` of
the database, the source host and the compiler. -/
structure World (σ : Type) where
  ext : σ
  heap : Heap

/-- The result of a Go function returning `(value, error)`. -/
abbrev GoResult (α : Type) := α × Option GoError

/-- The collaborators the handler takes from the gin context. Each is any
state-passing function: it may read and change the world, and returns a Go
`(value, error)` pair. They receive their arguments by value. -/
structure Collaborators (σ : Type) where
  GetUser : Int → World σ → GoResult User × World σ
  ConfigBackoff : User → String → String → String → World σ →
    GoResult (List Nat) × World σ
  Parse : Metadata → User → List Nat → World σ → GoResult Build × World σ
  Validate : Metadata → User → Build → World σ → Option GoError × World σ
  ExpandStages : Metadata → User → List Stage → TemplateMap → World σ →
    GoResult (List Stage) × World σ
  ExpandSteps : Metadata → User → List Step → TemplateMap → World σ →
    GoResult (List Step) × World σ

/-- What the middleware stored in the gin context before the handler runs
(`repo.Retrieve(c)` and `c.MustGet("metadata")`), and the environment variable
`VLCM` read by `os.Getenv`. -/
structure Context where
  repo : Repo
  metadata : Metadata
  VLCM : String
deriving DecidableEq, Repr

/-- The phases of the handler, in the order of the source. -/
inductive Phase where
  | GetUser
  | ConfigBackoff
  | Parse
  | Validate
  | ExpandStages
  | ExpandSteps
deriving DecidableEq, Repr, Fintype

/-- The position of a phase in the source. -/
def Phase.index : Phase → Nat
  | .GetUser => 0
  | .ConfigBackoff => 1
  | .Parse => 2
  | .Validate => 3
  | .ExpandStages => 4
  | .ExpandSteps => 5

/-- One entry of the call log: a call of a collaborator with its arguments and
the error it returned, or a call of `mapFromTemplates`. -/
inductive Event where
  | GetUser (id : Int) (err : Option GoError)
  | ConfigBackoff (u : User) (org name cm : String) (err : Option GoError)
  | Parse (config : List Nat) (err : Option GoError)
  | Validate (p : Build) (err : Option GoError)
  | mapFromTemplates (templates : List TemplatePtr)
  | ExpandStages (stages : List Stage) (tmpls : TemplateMap) (err : Option GoError)
  | ExpandSteps (steps : List Step) (tmpls : TemplateMap) (err : Option GoError)
deriving DecidableEq, Repr

/-- The phase a log entry belongs to; building the index is not a phase. -/
def Event.phase : Event → Option Phase
  | .GetUser _ _ => some .GetUser
  | .ConfigBackoff _ _ _ _ _ => some .ConfigBackoff
  | .Parse _ _ => some .Parse
  | .Validate _ _ => some .Validate
  | .mapFromTemplates _ => none
  | .ExpandStages _ _ _ => some .ExpandStages
  | .ExpandSteps _ _ _ => some .ExpandSteps

/-- The error a logged call returned. -/
def Event.err : Event → Option GoError
  | .GetUser _ err => err
  | .ConfigBackoff _ _ _ _ err => err
  | .Parse _ err => err
  | .Validate _ err => err
  | .mapFromTemplates _ => none
  | .ExpandStages _ _ err => err
  | .ExpandSteps _ _ err => err

/-- What the handler writes to the client. -/
inductive Response where
  | error (status : Nat) (err : GoError)
  | json (status : Nat) (doc : Build)
deriving DecidableEq, Repr

def StatusOK : Nat := 200

def StatusBadRequest : Nat := 400

def StatusNotFound : Nat := 404

def StatusInternalServerError : Nat := 500

/-- Modelled from the spec: `util.HandleError`, whose source is not part of the
files at hand. A failure is reported with a status and carries the error,
whose message is the body of the response. -/
def HandleError (status : Nat) (err : GoError) : Response :=
  .error status err

/-- The result of one run of the handler: the call log, the responses written,
the panic that ended the run (if any), and the world afterwards. -/
structure Outcome (σ : Type) where
  trace : List Event
  responses : List Response
  panic : Option Panic
  world : World σ

/-- Lines 115 to 131 of `Compile`: expand the steps of `p` and respond. `tr` is
the call log so far. -/
def Compile.steps {σ : Type} (col : Collaborators σ) (c : Context) (u : User) (p : Build)
    (tmpls : TemplateMap) (tr : List Event) (w : World σ) : Outcome σ :=
  match col.ExpandSteps c.metadata u p.Steps tmpls w with
  | ((_, some err), w') =>
    { trace := tr ++ [.ExpandSteps p.Steps tmpls (some err)]
      responses := [HandleError StatusInternalServerError (Errorf "unable to expand steps" err)]
      panic := none
      world := w' }
  | ((steps, none), w') =>
    { trace := tr ++ [.ExpandSteps p.Steps tmpls none]
      responses := [.json StatusOK { p with Steps := steps }]
      panic := none
      world := w' }

/-- Lines 98 to 113 of `Compile`, followed by `Compile.steps`: build the
template index, expand the stages when there are some. -/
def Compile.expand {σ : Type} (col : Collaborators σ) (c : Context) (u : User) (p : Build)
    (tr : List Event) (w : World σ) : Outcome σ :=
  match mapFromTemplates w.heap p.Templates with
  | .error e =>
    { trace := tr ++ [.mapFromTemplates p.Templates]
      responses := []
      panic := some e
      world := w }
  | .ok (tmpls, h) =>
    if 0 < p.Stages.length then
      match col.ExpandStages c.metadata u p.Stages tmpls { w with heap := h } with
      | ((_, some err), w') =>
        { trace := tr ++ [.mapFromTemplates p.Templates, .ExpandStages p.Stages tmpls (some err)]
          responses :=
            [HandleError StatusInternalServerError (Errorf "unable to expand stages" err)]
          panic := none
          world := w' }
      | ((stages, none), w') =>
        Compile.steps col c u { p with Stages := stages } tmpls
          (tr ++ [.mapFromTemplates p.Templates, .ExpandStages p.Stages tmpls none]) w'
    else
      Compile.steps col c u p tmpls (tr ++ [.mapFromTemplates p.Templates])
        { w with heap := h }

/-- The handler `Compile`, run in context `c` from world `w`: lines 42 to 96,
followed by `Compile.expand`. Each `return` after `util.HandleError` ends the
run. The two `logrus.Info` calls write to the server log only and are left
out. -/
def Compile {σ : Type} (col : Collaborators σ) (c : Context) (w : World σ) : Outcome σ :=
  match col.GetUser c.repo.UserID w with
  | ((_, some err), w1) =>
    { trace := [.GetUser c.repo.UserID (some err)]
      responses :=
        [HandleError StatusBadRequest (Errorf ("unable to get owner for " ++ c.repo.FullName) err)]
      panic := none
      world := w1 }
  | ((u, none), w1) =>
    match col.ConfigBackoff u c.repo.Org c.repo.Name c.VLCM w1 with
    | ((_, some err), w2) =>
      { trace := [.GetUser c.repo.UserID none,
          .ConfigBackoff u c.repo.Org c.repo.Name c.VLCM (some err)]
        responses :=
          [HandleError StatusNotFound (Errorf "unable to get pipeline configuration" err)]
        panic := none
        world := w2 }
    | ((config, none), w2) =>
      match col.Parse c.metadata u config w2 with
      | ((_, some err), w3) =>
        { trace := [.GetUser c.repo.UserID none,
            .ConfigBackoff u c.repo.Org c.repo.Name c.VLCM none, .Parse config (some err)]
          responses := [HandleError StatusInternalServerError
            (Errorf "unable to parse pipeline configuration" err)]
          panic := none
          world := w3 }
      | ((p, none), w3) =>
        match col.Validate c.metadata u p w3 with
        | (some err, w4) =>
          { trace := [.GetUser c.repo.UserID none,
              .ConfigBackoff u c.repo.Org c.repo.Name c.VLCM none, .Parse config none,
              .Validate p (some err)]
            responses := [HandleError StatusInternalServerError
              (Errorf "unable to validate pipeline" err)]
            panic := none
            world := w4 }
        | (none, w4) =>
          Compile.expand col c u p [.GetUser c.repo.UserID none,
            .ConfigBackoff u c.repo.Org c.repo.Name c.VLCM none, .Parse config none,
            .Validate p none] w4

/-! ## Vocabulary of the properties -/

/-- The pointer `p` is not nil and the template it points at has name `n`. -/
def hasName (h : Heap) (n : String) (p : TemplatePtr) : Bool :=
  match p with
  | none => false
  | some a => decide ((h a).Name = n)

/-- The last template of the sequence `ts` whose name is `n`, as the
specification words it. -/
def lastNamed (h : Heap) (ts : List TemplatePtr) (n : String) : Option TemplatePtr :=
  (ts.filter (hasName h n)).getLast?

/-- Phase `ph` was invoked in the run logged as `t`. -/
def invoked (t : List Event) (ph : Phase) : Prop :=
  ∃ e ∈ t, e.phase = some ph

/-- Phase `ph` was invoked and returned an error. -/
def failed (t : List Event) (ph : Phase) : Prop :=
  ∃ e ∈ t, e.phase = some ph ∧ e.err ≠ none

/-- Phase `ph` was invoked and returned no error. -/
def succeeded (t : List Event) (ph : Phase) : Prop :=
  ∃ e ∈ t, e.phase = some ph ∧ e.err = none

/-- The phase of a log entry and whether the call returned an error. -/
def Event.sig (e : Event) : Option Phase × Bool :=
  (e.phase, e.err.isSome)

/-- The number of calls of phase `ph`. -/
def calls (t : List Event) (ph : Phase) : Nat :=
  (t.filter (fun e => decide (e.phase = some ph))).length

/-- The calls of `mapFromTemplates` in a log. -/
def indexBuilds (t : List Event) : List Event :=
  t.filter (fun e => match e with
    | .mapFromTemplates _ => true
    | _ => false)

/-- The first phase that returned an error, if any did. -/
def firstFailure (t : List Event) : Option Phase :=
  (t.find? (fun e => e.err.isSome)).bind Event.phase

/-- The status the specification gives to a run by its first failing phase. -/
def statusFor : Option Phase → Nat
  | some .GetUser => 400
  | some .ConfigBackoff => 404
  | some _ => 500
  | none => 200

/-- The message prefix the specification gives to each phase. -/
def phaseLabel (fullName : String) : Phase → String
  | .GetUser => "unable to get owner for " ++ fullName
  | .ConfigBackoff => "unable to get pipeline configuration"
  | .Parse => "unable to parse pipeline configuration"
  | .Validate => "unable to validate pipeline"
  | .ExpandStages => "unable to expand stages"
  | .ExpandSteps => "unable to expand steps"

/-- The status of a response. -/
def Response.status : Response → Nat
  | .error status _ => status
  | .json status _ => status

instance (t : List Event) (ph : Phase) : Decidable (invoked t ph) := by
  unfold invoked
  infer_instance

instance (t : List Event) (ph : Phase) : Decidable (failed t ph) := by
  unfold failed
  infer_instance

instance (t : List Event) (ph : Phase) : Decidable (succeeded t ph) := by
  unfold succeeded
  infer_instance

/-- The ten ways a run of the handler can go, each with the results of the
collaborators that lead to it and the outcome it leaves. The theorem
`compile_run` shows that every run of `Compile` is one of them. -/
inductive Run {σ : Type} (col : Collaborators σ) (c : Context) (w : World σ) :
    Outcome σ → Prop where
  | ownerFailed (u : User) (err : GoError) (w1 : World σ)
      (hU : col.GetUser c.repo.UserID w = ((u, some err), w1)) :
      Run col c w
        { trace := [.GetUser c.repo.UserID (some err)]
          responses := [HandleError StatusBadRequest
            (Errorf ("unable to get owner for " ++ c.repo.FullName) err)]
          panic := none
          world := w1 }
  | configFailed (u : User) (w1 : World σ) (cfg : List Nat) (err : GoError) (w2 : World σ)
      (hU : col.GetUser c.repo.UserID w = ((u, none), w1))
      (hC : col.ConfigBackoff u c.repo.Org c.repo.Name c.VLCM w1 = ((cfg, some err), w2)) :
      Run col c w
        { trace := [.GetUser c.repo.UserID none,
            .ConfigBackoff u c.repo.Org c.repo.Name c.VLCM (some err)]
          responses :=
            [HandleError StatusNotFound (Errorf "unable to get pipeline configuration" err)]
          panic := none
          world := w2 }
  | parseFailed (u : User) (w1 : World σ) (cfg : List Nat) (w2 : World σ) (p : Build)
      (err : GoError) (w3 : World σ)
      (hU : col.GetUser c.repo.UserID w = ((u, none), w1))
      (hC : col.ConfigBackoff u c.repo.Org c.repo.Name c.VLCM w1 = ((cfg, none), w2))
      (hP : col.Parse c.metadata u cfg w2 = ((p, some err), w3)) :
      Run col c w
        { trace := [.GetUser c.repo.UserID none,
            .ConfigBackoff u c.repo.Org c.repo.Name c.VLCM none, .Parse cfg (some err)]
          responses := [HandleError StatusInternalServerError
            (Errorf "unable to parse pipeline configuration" err)]
          panic := none
          world := w3 }
  | validateFailed (u : User) (w1 : World σ) (cfg : List Nat) (w2 : World σ) (p : Build)
      (w3 : World σ) (err : GoError) (w4 : World σ)
      (hU : col.GetUser c.repo.UserID w = ((u, none), w1))
      (hC : col.ConfigBackoff u c.repo.Org c.repo.Name c.VLCM w1 = ((cfg, none), w2))
      (hP : col.Parse c.metadata u cfg w2 = ((p, none), w3))
      (hV : col.Validate c.metadata u p w3 = (some err, w4)) :
      Run col c w
        { trace := [.GetUser c.repo.UserID none,
            .ConfigBackoff u c.repo.Org c.repo.Name c.VLCM none, .Parse cfg none,
            .Validate p (some err)]
          responses := [HandleError StatusInternalServerError
            (Errorf "unable to validate pipeline" err)]
          panic := none
          world := w4 }
  | indexPanicked (u : User) (w1 : World σ) (cfg : List Nat) (w2 : World σ) (p : Build)
      (w3 w4 : World σ)
      (hU : col.GetUser c.repo.UserID w = ((u, none), w1))
      (hC : col.ConfigBackoff u c.repo.Org c.repo.Name c.VLCM w1 = ((cfg, none), w2))
      (hP : col.Parse c.metadata u cfg w2 = ((p, none), w3))
      (hV : col.Validate c.metadata u p w3 = (none, w4))
      (hnil : none ∈ p.Templates) :
      Run col c w
        { trace := [.GetUser c.repo.UserID none,
            .ConfigBackoff u c.repo.Org c.repo.Name c.VLCM none, .Parse cfg none,
            .Validate p none, .mapFromTemplates p.Templates]
          responses := []
          panic := some Panic.nilDereference
          world := w4 }
  | stagesFailed (u : User) (w1 : World σ) (cfg : List Nat) (w2 : World σ) (p : Build)
      (w3 w4 : World σ) (tmpls : TemplateMap) (stages : List Stage) (err : GoError)
      (w5 : World σ)
      (hU : col.GetUser c.repo.UserID w = ((u, none), w1))
      (hC : col.ConfigBackoff u c.repo.Org c.repo.Name c.VLCM w1 = ((cfg, none), w2))
      (hP : col.Parse c.metadata u cfg w2 = ((p, none), w3))
      (hV : col.Validate c.metadata u p w3 = (none, w4))
      (hnn : ∀ t ∈ p.Templates, t ≠ none)
      (hI : mapFromTemplates w4.heap p.Templates = .ok (tmpls, w4.heap))
      (hne : p.Stages ≠ [])
      (hX : col.ExpandStages c.metadata u p.Stages tmpls w4 = ((stages, some err), w5)) :
      Run col c w
        { trace := [.GetUser c.repo.UserID none,
            .ConfigBackoff u c.repo.Org c.repo.Name c.VLCM none, .Parse cfg none,
            .Validate p none, .mapFromTemplates p.Templates,
            .ExpandStages p.Stages tmpls (some err)]
          responses :=
            [HandleError StatusInternalServerError (Errorf "unable to expand stages" err)]
          panic := none
          world := w5 }
  | stepsFailed (u : User) (w1 : World σ) (cfg : List Nat) (w2 : World σ) (p : Build)
      (w3 w4 : World σ) (tmpls : TemplateMap) (stages : List Stage) (w5 : World σ)
      (steps : List Step) (err : GoError) (w6 : World σ)
      (hU : col.GetUser c.repo.UserID w = ((u, none), w1))
      (hC : col.ConfigBackoff u c.repo.Org c.repo.Name c.VLCM w1 = ((cfg, none), w2))
      (hP : col.Parse c.metadata u cfg w2 = ((p, none), w3))
      (hV : col.Validate c.metadata u p w3 = (none, w4))
      (hnn : ∀ t ∈ p.Templates, t ≠ none)
      (hI : mapFromTemplates w4.heap p.Templates = .ok (tmpls, w4.heap))
      (hne : p.Stages ≠ [])
      (hX : col.ExpandStages c.metadata u p.Stages tmpls w4 = ((stages, none), w5))
      (hS : col.ExpandSteps c.metadata u p.Steps tmpls w5 = ((steps, some err), w6)) :
      Run col c w
        { trace := [.GetUser c.repo.UserID none,
            .ConfigBackoff u c.repo.Org c.repo.Name c.VLCM none, .Parse cfg none,
            .Validate p none, .mapFromTemplates p.Templates,
            .ExpandStages p.Stages tmpls none, .ExpandSteps p.Steps tmpls (some err)]
          responses :=
            [HandleError StatusInternalServerError (Errorf "unable to expand steps" err)]
          panic := none
          world := w6 }
  | stepsFailedNoStages (u : User) (w1 : World σ) (cfg : List Nat) (w2 : World σ) (p : Build)
      (w3 w4 : World σ) (tmpls : TemplateMap) (steps : List Step) (err : GoError)
      (w6 : World σ)
      (hU : col.GetUser c.repo.UserID w = ((u, none), w1))
      (hC : col.ConfigBackoff u c.repo.Org c.repo.Name c.VLCM w1 = ((cfg, none), w2))
      (hP : col.Parse c.metadata u cfg w2 = ((p, none), w3))
      (hV : col.Validate c.metadata u p w3 = (none, w4))
      (hnn : ∀ t ∈ p.Templates, t ≠ none)
      (hI : mapFromTemplates w4.heap p.Templates = .ok (tmpls, w4.heap))
      (hnil : p.Stages = [])
      (hS : col.ExpandSteps c.metadata u p.Steps tmpls w4 = ((steps, some err), w6)) :
      Run col c w
        { trace := [.GetUser c.repo.UserID none,
            .ConfigBackoff u c.repo.Org c.repo.Name c.VLCM none, .Parse cfg none,
            .Validate p none, .mapFromTemplates p.Templates,
            .ExpandSteps p.Steps tmpls (some err)]
          responses :=
            [HandleError StatusInternalServerError (Errorf "unable to expand steps" err)]
          panic := none
          world := w6 }
  | done (u : User) (w1 : World σ) (cfg : List Nat) (w2 : World σ) (p : Build)
      (w3 w4 : World σ) (tmpls : TemplateMap) (stages : List Stage) (w5 : World σ)
      (steps : List Step) (w6 : World σ)
      (hU : col.GetUser c.repo.UserID w = ((u, none), w1))
      (hC : col.ConfigBackoff u c.repo.Org c.repo.Name c.VLCM w1 = ((cfg, none), w2))
      (hP : col.Parse c.metadata u cfg w2 = ((p, none), w3))
      (hV : col.Validate c.metadata u p w3 = (none, w4))
      (hnn : ∀ t ∈ p.Templates, t ≠ none)
      (hI : mapFromTemplates w4.heap p.Templates = .ok (tmpls, w4.heap))
      (hne : p.Stages ≠ [])
      (hX : col.ExpandStages c.metadata u p.Stages tmpls w4 = ((stages, none), w5))
      (hS : col.ExpandSteps c.metadata u p.Steps tmpls w5 = ((steps, none), w6)) :
      Run col c w
        { trace := [.GetUser c.repo.UserID none,
            .ConfigBackoff u c.repo.Org c.repo.Name c.VLCM none, .Parse cfg none,
            .Validate p none, .mapFromTemplates p.Templates,
            .ExpandStages p.Stages tmpls none, .ExpandSteps p.Steps tmpls none]
          responses := [.json StatusOK { p with Stages := stages, Steps := steps }]
          panic := none
          world := w6 }
  | doneNoStages (u : User) (w1 : World σ) (cfg : List Nat) (w2 : World σ) (p : Build)
      (w3 w4 : World σ) (tmpls : TemplateMap) (steps : List Step) (w6 : World σ)
      (hU : col.GetUser c.repo.UserID w = ((u, none), w1))
      (hC : col.ConfigBackoff u c.repo.Org c.repo.Name c.VLCM w1 = ((cfg, none), w2))
      (hP : col.Parse c.metadata u cfg w2 = ((p, none), w3))
      (hV : col.Validate c.metadata u p w3 = (none, w4))
      (hnn : ∀ t ∈ p.Templates, t ≠ none)
      (hI : mapFromTemplates w4.heap p.Templates = .ok (tmpls, w4.heap))
      (hnil : p.Stages = [])
      (hS : col.ExpandSteps c.metadata u p.Steps tmpls w4 = ((steps, none), w6)) :
      Run col c w
        { trace := [.GetUser c.repo.UserID none,
            .ConfigBackoff u c.repo.Org c.repo.Name c.VLCM none, .Parse cfg none,
            .Validate p none, .mapFromTemplates p.Templates,
            .ExpandSteps p.Steps tmpls none]
          responses := [.json StatusOK { p with Steps := steps }]
          panic := none
          world := w6 }

/-- The first four phases succeed, in the order of the source: owner lookup
returns the owner `u`, configuration retrieval succeeds, `Parse` returns the
document `p` and `Validate` accepts it, leaving the world `w4`. -/
def firstFour {σ : Type} (col : Collaborators σ) (c : Context) (w : World σ)
    (u : User) (p : Build) (w4 : World σ) : Prop :=
  ∃ w1 cfg w2 w3, col.GetUser c.repo.UserID w = ((u, none), w1) ∧
    col.ConfigBackoff u c.repo.Org c.repo.Name c.VLCM w1 = ((cfg, none), w2) ∧
    col.Parse c.metadata u cfg w2 = ((p, none), w3) ∧
    col.Validate c.metadata u p w3 = (none, w4)

/-- The first four phases succeed, `mapFromTemplates` returns the index `tmpls`
on the templates of the parsed document, and stage expansion is over without
an error, leaving the world `w5`: either there is no stage and `ExpandStages`
is skipped, or `ExpandStages` returned no error on the stages and the index. -/
def stagesDone {σ : Type} (col : Collaborators σ) (c : Context) (w : World σ)
    (u : User) (p : Build) (tmpls : TemplateMap) (w5 : World σ) : Prop :=
  ∃ w4, firstFour col c w u p w4 ∧
    mapFromTemplates w4.heap p.Templates = .ok (tmpls, w4.heap) ∧
    ((p.Stages = [] ∧ w5 = w4) ∨
      (p.Stages ≠ [] ∧ ∃ stages,
        col.ExpandStages c.metadata u p.Stages tmpls w4 = ((stages, none), w5)))

/-- The collaborator of phase `ph`, applied to the arguments the source gives
it after the phases before it returned no error, returns the error value `r`
(`none` is the nil error). This speaks of the collaborators only, not of the
log of the handler. -/
def phaseReturns {σ : Type} (col : Collaborators σ) (c : Context) (w : World σ) :
    Phase → Option GoError → Prop
  | .GetUser, r => ∃ u w1, col.GetUser c.repo.UserID w = ((u, r), w1)
  | .ConfigBackoff, r => ∃ u w1 cfg w2, col.GetUser c.repo.UserID w = ((u, none), w1) ∧
      col.ConfigBackoff u c.repo.Org c.repo.Name c.VLCM w1 = ((cfg, r), w2)
  | .Parse, r => ∃ u w1 cfg w2 p w3, col.GetUser c.repo.UserID w = ((u, none), w1) ∧
      col.ConfigBackoff u c.repo.Org c.repo.Name c.VLCM w1 = ((cfg, none), w2) ∧
      col.Parse c.metadata u cfg w2 = ((p, r), w3)
  | .Validate, r => ∃ u w1 cfg w2 p w3 w4, col.GetUser c.repo.UserID w = ((u, none), w1) ∧
      col.ConfigBackoff u c.repo.Org c.repo.Name c.VLCM w1 = ((cfg, none), w2) ∧
      col.Parse c.metadata u cfg w2 = ((p, none), w3) ∧
      col.Validate c.metadata u p w3 = (r, w4)
  | .ExpandStages, r => ∃ u p w4 tmpls stages w5, firstFour col c w u p w4 ∧
      mapFromTemplates w4.heap p.Templates = .ok (tmpls, w4.heap) ∧ p.Stages ≠ [] ∧
      col.ExpandStages c.metadata u p.Stages tmpls w4 = ((stages, r), w5)
  | .ExpandSteps, r => ∃ u p tmpls w5 steps w6, stagesDone col c w u p tmpls w5 ∧
      col.ExpandSteps c.metadata u p.Steps tmpls w5 = ((steps, r), w6)

/-! ## Test doubles -/

/-- A memory with a template named `build` at address 1 and templates named
`deploy` elsewhere. -/
def demoHeap : Heap := fun a =>
  if a = 1 then ⟨"build", "b.yml", "yaml", "github"⟩ else ⟨"deploy", "d.yml", "yaml", "github"⟩

/-- The error a double returns at phase `ph` when it is told to fail there. -/
def failAt (failing : Option Phase) (ph : Phase) : Option GoError :=
  if failing = some ph then some (.plain "boom") else none

/-- Collaborator doubles: `Parse` returns `doc`, the expanders drop the template
references, and the phase `failing`, if any, returns an error. The world counts
the calls. -/
def double (failing : Option Phase) (doc : Build) : Collaborators Nat where
  GetUser := fun id w => ((⟨id, "octocat"⟩, failAt failing .GetUser), { w with ext := w.ext + 1 })
  ConfigBackoff := fun _ _ _ _ w =>
    (([1, 2, 3], failAt failing .ConfigBackoff), { w with ext := w.ext + 1 })
  Parse := fun _ _ _ w => ((doc, failAt failing .Parse), { w with ext := w.ext + 1 })
  Validate := fun _ _ _ w => (failAt failing .Validate, { w with ext := w.ext + 1 })
  ExpandStages := fun _ _ stages _ w =>
    ((stages.map (fun s => { s with Steps := s.Steps.map (fun x => { x with Template := none }) }),
      failAt failing .ExpandStages), { w with ext := w.ext + 1 })
  ExpandSteps := fun _ _ steps _ w =>
    ((steps.map (fun x => { x with Template := none }), failAt failing .ExpandSteps),
      { w with ext := w.ext + 1 })

def demoContext : Context :=
  { repo := ⟨7, "github", "octocat", "github/octocat"⟩
    metadata := ⟨"postgres", "redis", "github", "vela"⟩
    VLCM := "" }

def demoWorld : World Nat := { ext := 0, heap := demoHeap }

def demoStep : Step := ⟨"notify", "alpine", ["echo"], some "build"⟩

/-- A document with one stage, one step and the templates at addresses 1 and 2. -/
def demoDoc : Build :=
  { Version := "1", Metadata := false, Stages := [⟨"test", [], [demoStep]⟩],
    Steps := [demoStep], Templates := [some 1, some 2] }

/-- The document `demoDoc` after both expansions by the doubles. -/
def expandedDoc : Build :=
  { Version := "1", Metadata := false,
    Stages := [⟨"test", [], [⟨"notify", "alpine", ["echo"], none⟩]⟩],
    Steps := [⟨"notify", "alpine", ["echo"], none⟩], Templates := [some 1, some 2] }

/-- A document without stages. -/
def stagelessDoc : Build :=
  { Version := "1", Metadata := false, Stages := [], Steps := [demoStep],
    Templates := [some 1, some 2] }

/-- A document whose template list holds a nil entry. -/
def nilDoc : Build :=
  { Version := "1", Metadata := false, Stages := [⟨"test", [], [demoStep]⟩],
    Steps := [demoStep], Templates := [some 1, none] }

/-! ## Lemmas on the map -/

theorem mapaccess_mapassign (m : TemplateMap) (k : String) (v : TemplatePtr) (n : String) :
    mapaccess (mapassign m k v) n = if k = n then some v else mapaccess m n := by
  induction m with
  | nil => simp [mapassign, mapaccess]
  | cons e rest ih =>
    obtain ⟨k', v'⟩ := e
    by_cases hk : k' = k
    · subst hk
      by_cases hn : k' = n <;> simp [mapassign, mapaccess, hn]
    · by_cases hn : k' = n
      · subst hn
        have hk2 : ¬ k = k' := fun h => hk h.symm
        simp [mapassign, mapaccess, hk, hk2]
      · simp [mapassign, mapaccess, hk, hn, ih]

theorem mem_mapkeys_iff (m : TemplateMap) (n : String) :
    n ∈ mapkeys m ↔ mapaccess m n ≠ none := by
  induction m with
  | nil => simp [mapkeys, mapaccess]
  | cons e rest ih =>
    obtain ⟨k', v'⟩ := e
    by_cases hn : k' = n
    · simp [mapkeys, mapaccess, hn]
    · have hn2 : ¬ n = k' := fun h => hn h.symm
      have ih2 : n ∈ List.map Prod.fst rest ↔ mapaccess rest n ≠ none := ih
      simp only [mapkeys, List.map_cons, List.mem_cons, hn2, false_or, mapaccess, hn,
        if_false]
      exact ih2

/-- On a sequence without nil entries the loop returns and keeps the memory. -/
theorem loop_ok (h : Heap) (ts : List TemplatePtr) (hnn : ∀ p ∈ ts, p ≠ none)
    (m : TemplateMap) :
    ∃ m', mapFromTemplates.loop ts (m, h) = .ok (m', h) := by
  induction ts generalizing m with
  | nil => exact ⟨m, rfl⟩
  | cons p rest ih =>
    cases p with
    | none => exact absurd rfl (hnn none (List.mem_cons_self _ _))
    | some a =>
      have hrest : ∀ q ∈ rest, q ≠ none := fun q hq => hnn q (List.mem_cons_of_mem _ hq)
      obtain ⟨m', hm'⟩ := ih hrest (mapassign m (h a).Name (some a))
      exact ⟨m', by simpa [mapFromTemplates.loop, mapFromTemplates.body] using hm'⟩

theorem loop_heap (ts : List TemplatePtr) (st st' : TemplateMap × Heap)
    (hrun : mapFromTemplates.loop ts st = .ok st') : st'.2 = st.2 := by
  induction ts generalizing st with
  | nil =>
    simp only [mapFromTemplates.loop, Except.ok.injEq] at hrun
    rw [hrun]
  | cons p rest ih =>
    cases p with
    | none => simp [mapFromTemplates.loop, mapFromTemplates.body] at hrun
    | some a =>
      simp only [mapFromTemplates.loop, mapFromTemplates.body] at hrun
      have hst := ih (mapassign st.1 (st.2 a).Name (some a), st.2) hrun
      simpa using hst

theorem loop_nil_entry (ts : List TemplatePtr) (hnil : none ∈ ts) (st : TemplateMap × Heap) :
    mapFromTemplates.loop ts st = .error Panic.nilDereference := by
  induction ts generalizing st with
  | nil => simp at hnil
  | cons p rest ih =>
    cases p with
    | none => simp [mapFromTemplates.loop, mapFromTemplates.body]
    | some a =>
      have hrest : none ∈ rest := by simpa using hnil
      simp only [mapFromTemplates.loop, mapFromTemplates.body]
      exact ih hrest _

theorem loop_append (h : Heap) (pre post : List TemplatePtr) (m : TemplateMap) :
    mapFromTemplates.loop (pre ++ post) (m, h) =
      match mapFromTemplates.loop pre (m, h) with
      | .error e => .error e
      | .ok st => mapFromTemplates.loop post st := by
  induction pre generalizing m with
  | nil => simp [mapFromTemplates.loop]
  | cons p rest ih =>
    cases p with
    | none => simp [mapFromTemplates.loop, mapFromTemplates.body]
    | some a =>
      simp only [List.cons_append, mapFromTemplates.loop, mapFromTemplates.body]
      exact ih _

/-- Entries whose name differs from `n` leave the lookup of `n` as it was. -/
theorem loop_access_other (h : Heap) (ts : List TemplatePtr) (n : String)
    (hne : ∀ b, some b ∈ ts → (h b).Name ≠ n) (m m' : TemplateMap)
    (hrun : mapFromTemplates.loop ts (m, h) = .ok (m', h)) :
    mapaccess m' n = mapaccess m n := by
  induction ts generalizing m with
  | nil =>
    simp only [mapFromTemplates.loop, Except.ok.injEq, Prod.mk.injEq, and_true] at hrun
    rw [hrun]
  | cons p rest ih =>
    cases p with
    | none => simp [mapFromTemplates.loop, mapFromTemplates.body] at hrun
    | some a =>
      simp only [mapFromTemplates.loop, mapFromTemplates.body] at hrun
      have hrest : ∀ b, some b ∈ rest → (h b).Name ≠ n :=
        fun b hb => hne b (List.mem_cons_of_mem _ hb)
      rw [ih hrest _ hrun, mapaccess_mapassign]
      simp [hne a (List.mem_cons_self _ _)]


/-- The lookup after the loop: the last entry named `n`, or else what the map
held before. -/
theorem loop_access (h : Heap) (ts : List TemplatePtr) (n : String) (m m' : TemplateMap)
    (hrun : mapFromTemplates.loop ts (m, h) = .ok (m', h)) :
    mapaccess m' n = (lastNamed h ts n).orElse (fun _ => mapaccess m n) := by
  induction ts using List.reverseRecOn generalizing m' with
  | nil =>
    simp only [mapFromTemplates.loop, Except.ok.injEq, Prod.mk.injEq, and_true] at hrun
    simp [lastNamed, hrun]
  | append_singleton init p ih =>
    rw [loop_append] at hrun
    cases hinit : mapFromTemplates.loop init (m, h) with
    | error e => simp [hinit] at hrun
    | ok st =>
      obtain ⟨m1, h1⟩ := st
      have hh : h1 = h := loop_heap init (m, h) (m1, h1) hinit
      subst hh
      rw [hinit] at hrun
      cases p with
      | none => simp [mapFromTemplates.loop, mapFromTemplates.body] at hrun
      | some a =>
        simp only [mapFromTemplates.loop, mapFromTemplates.body, Except.ok.injEq,
          Prod.mk.injEq, and_true] at hrun
        rw [← hrun, mapaccess_mapassign, ih m1 hinit]
        by_cases hn : (h1 a).Name = n
        · simp [lastNamed, List.filter_append, hasName, hn]
        · simp [lastNamed, List.filter_append, hasName, hn]

theorem lastNamed_ne_none_iff (h : Heap) (ts : List TemplatePtr) (n : String) :
    lastNamed h ts n ≠ none ↔ ∃ a, some a ∈ ts ∧ (h a).Name = n := by
  unfold lastNamed
  rw [ne_eq, List.getLast?_eq_none_iff, List.filter_eq_nil_iff]
  constructor
  · intro hex
    push_neg at hex
    obtain ⟨p, hp, hname⟩ := hex
    cases p with
    | none => simp [hasName] at hname
    | some a => exact ⟨a, hp, by simpa [hasName] using hname⟩
  · rintro ⟨a, ha, hname⟩ hall
    exact hall (some a) ha (by simp [hasName, hname])

/-! ## The template index -/

/-- C1. On a sequence `ts` without nil entries `mapFromTemplates` returns a map
in which the lookup of any name `n` is the last template of `ts` named `n`, and
is absent when no template of `ts` has that name; the keys of the map are
exactly the names occurring in `ts`. -/
theorem mapFromTemplates_last_write_wins (h : Heap) (ts : List TemplatePtr)
    (hnn : ∀ p ∈ ts, p ≠ none) (n : String) :
    ∃ m, mapFromTemplates h ts = .ok (m, h) ∧
      mapaccess m n = lastNamed h ts n ∧
      (∀ pre a post, ts = pre ++ some a :: post → (h a).Name = n →
        (∀ b, some b ∈ post → (h b).Name ≠ n) → mapaccess m n = some (some a)) ∧
      (mapaccess m n = none ↔ ∀ a, some a ∈ ts → (h a).Name ≠ n) ∧
      (∀ k, k ∈ mapkeys m ↔ ∃ a, some a ∈ ts ∧ (h a).Name = k) := by
  obtain ⟨m, hm⟩ := loop_ok h ts hnn []
  have hacc : ∀ k, mapaccess m k = lastNamed h ts k := by
    intro k
    have hk := loop_access h ts k [] m hm
    simpa [mapaccess] using hk
  refine ⟨m, hm, hacc n, ?_, ?_, ?_⟩
  · intro pre a post hts hname hpost
    have hfilter : post.filter (hasName h n) = [] := by
      rw [List.filter_eq_nil_iff]
      intro q hq
      cases q with
      | none => simp [hasName]
      | some b => simpa [hasName] using hpost b hq
    rw [hacc n, hts]
    simp [lastNamed, List.filter_append, List.filter_cons, hasName, hname, hfilter]
  · rw [hacc n]
    have hiff := lastNamed_ne_none_iff h ts n
    constructor
    · intro hnone a ha hname
      exact (hiff.mpr ⟨a, ha, hname⟩) hnone
    · intro hall
      by_contra hne
      obtain ⟨a, ha, hname⟩ := hiff.mp hne
      exact hall a ha hname
  · intro k
    rw [mem_mapkeys_iff, hacc k]
    exact lastNamed_ne_none_iff h ts k

theorem mapFromTemplates_last_write_wins_witness :
    (∀ p ∈ [some 2, some 1, some 3], p ≠ (none : TemplatePtr)) ∧
    ∃ m, mapFromTemplates demoHeap [some 2, some 1, some 3] = .ok (m, demoHeap) ∧
      mapaccess m "deploy" = lastNamed demoHeap [some 2, some 1, some 3] "deploy" ∧
      (∀ pre a post, [some 2, some 1, some 3] = pre ++ some a :: post →
        (demoHeap a).Name = "deploy" →
        (∀ b, some b ∈ post → (demoHeap b).Name ≠ "deploy") →
        mapaccess m "deploy" = some (some a)) ∧
      (mapaccess m "deploy" = none ↔
        ∀ a, some a ∈ [some 2, some 1, some 3] → (demoHeap a).Name ≠ "deploy") ∧
      (∀ k, k ∈ mapkeys m ↔ ∃ a, some a ∈ [some 2, some 1, some 3] ∧ (demoHeap a).Name = k) :=
  ⟨by decide, mapFromTemplates_last_write_wins demoHeap [some 2, some 1, some 3]
    (by decide) "deploy"⟩

/-- C7, as stated, fails: on a sequence with a nil entry the call does not
return a map, it panics when it reads the name through the nil pointer. -/
theorem mapFromTemplates_nil_entry_panics :
    mapFromTemplates demoHeap [some 1, none] = .error Panic.nilDereference ∧
    ¬ ∃ m h, mapFromTemplates demoHeap [some 1, none] = .ok (m, h) := by
  constructor
  · rfl
  · rintro ⟨m, h, hm⟩
    have hp : mapFromTemplates demoHeap [some 1, none] = .error Panic.nilDereference := rfl
    rw [hp] at hm
    cases hm

/-- C7, amended. On every sequence without nil entries, the empty one included,
`mapFromTemplates` returns a map and leaves the memory as it was; on the empty
sequence the map is empty. -/
theorem mapFromTemplates_total (h : Heap) (ts : List TemplatePtr)
    (hnn : ∀ p ∈ ts, p ≠ none) :
    (∃ m, mapFromTemplates h ts = .ok (m, h)) ∧ mapFromTemplates h [] = .ok ([], h) :=
  ⟨loop_ok h ts hnn [], rfl⟩

theorem mapFromTemplates_total_witness :
    (∀ p ∈ [some 1, some 2], p ≠ (none : TemplatePtr)) ∧
    (∃ m, mapFromTemplates demoHeap [some 1, some 2] = .ok (m, demoHeap)) ∧
    mapFromTemplates demoHeap [] = .ok ([], demoHeap) :=
  ⟨by decide, mapFromTemplates_total demoHeap [some 1, some 2] (by decide)⟩

/-- C9. A call of `mapFromTemplates` that returns leaves the memory, and so
every template, as it found it, and a second call on the same sequence returns
an equal map: the same keys and the same template at every key. The sequence
itself is passed by value and only read. -/
theorem mapFromTemplates_pure (h : Heap) (ts : List TemplatePtr) (m : TemplateMap) (h1 : Heap)
    (hrun : mapFromTemplates h ts = .ok (m, h1)) :
    h1 = h ∧
    ∃ m2 h2, mapFromTemplates h1 ts = .ok (m2, h2) ∧ m2 = m ∧ h2 = h ∧
      mapkeys m2 = mapkeys m ∧ ∀ k, mapaccess m2 k = mapaccess m k := by
  have hh : h1 = h := loop_heap ts ([], h) (m, h1) hrun
  subst hh
  exact ⟨rfl, m, h1, hrun, rfl, rfl, rfl, fun _ => rfl⟩

theorem mapFromTemplates_pure_witness :
    mapFromTemplates demoHeap [some 2, some 1, some 3] =
      .ok ([("deploy", some 3), ("build", some 1)], demoHeap) ∧
    ∃ m2 h2, mapFromTemplates demoHeap [some 2, some 1, some 3] = .ok (m2, h2) ∧
      m2 = [("deploy", some 3), ("build", some 1)] ∧ h2 = demoHeap ∧
      mapkeys m2 = mapkeys [("deploy", some 3), ("build", some 1)] ∧
      ∀ k, mapaccess m2 k = mapaccess [("deploy", some 3), ("build", some 1)] k :=
  ⟨rfl, (mapFromTemplates_pure demoHeap [some 2, some 1, some 3]
    [("deploy", some 3), ("build", some 1)] demoHeap rfl).2⟩

/-! ## The shape of a run -/

/-- The two ways `Compile.steps` ends. -/
theorem steps_cases {σ : Type} (col : Collaborators σ) (c : Context) (u : User) (p : Build)
    (tmpls : TemplateMap) (tr : List Event) (w : World σ) :
    (∃ steps err w', col.ExpandSteps c.metadata u p.Steps tmpls w = ((steps, some err), w') ∧
      Compile.steps col c u p tmpls tr w =
        { trace := tr ++ [.ExpandSteps p.Steps tmpls (some err)]
          responses :=
            [HandleError StatusInternalServerError (Errorf "unable to expand steps" err)]
          panic := none
          world := w' }) ∨
    (∃ steps w', col.ExpandSteps c.metadata u p.Steps tmpls w = ((steps, none), w') ∧
      Compile.steps col c u p tmpls tr w =
        { trace := tr ++ [.ExpandSteps p.Steps tmpls none]
          responses := [.json StatusOK { p with Steps := steps }]
          panic := none
          world := w' }) := by
  rcases hS : col.ExpandSteps c.metadata u p.Steps tmpls w with ⟨⟨steps, _ | err⟩, w'⟩
  · right
    exact ⟨steps, w', rfl, by simp only [Compile.steps, hS]⟩
  · left
    exact ⟨steps, err, w', rfl, by simp only [Compile.steps, hS]⟩

/-- The four ways `Compile.expand` goes on. -/
theorem expand_cases {σ : Type} (col : Collaborators σ) (c : Context) (u : User) (p : Build)
    (tr : List Event) (w : World σ) :
    (none ∈ p.Templates ∧
      Compile.expand col c u p tr w =
        { trace := tr ++ [.mapFromTemplates p.Templates]
          responses := []
          panic := some Panic.nilDereference
          world := w }) ∨
    (∃ tmpls, (∀ t ∈ p.Templates, t ≠ none) ∧
      mapFromTemplates w.heap p.Templates = .ok (tmpls, w.heap) ∧
      ((p.Stages = [] ∧
          Compile.expand col c u p tr w =
            Compile.steps col c u p tmpls (tr ++ [.mapFromTemplates p.Templates]) w) ∨
        (p.Stages ≠ [] ∧ ∃ stages err w',
          col.ExpandStages c.metadata u p.Stages tmpls w = ((stages, some err), w') ∧
          Compile.expand col c u p tr w =
            { trace := tr ++
                [.mapFromTemplates p.Templates, .ExpandStages p.Stages tmpls (some err)]
              responses :=
                [HandleError StatusInternalServerError (Errorf "unable to expand stages" err)]
              panic := none
              world := w' }) ∨
        (p.Stages ≠ [] ∧ ∃ stages w',
          col.ExpandStages c.metadata u p.Stages tmpls w = ((stages, none), w') ∧
          Compile.expand col c u p tr w =
            Compile.steps col c u { p with Stages := stages } tmpls
              (tr ++ [.mapFromTemplates p.Templates, .ExpandStages p.Stages tmpls none]) w'))) := by
  by_cases hnil : none ∈ p.Templates
  · left
    have hI : mapFromTemplates w.heap p.Templates = .error Panic.nilDereference :=
      loop_nil_entry p.Templates hnil _
    exact ⟨hnil, by simp only [Compile.expand, hI]⟩
  · right
    have hnn : ∀ t ∈ p.Templates, t ≠ none := fun t ht h0 => hnil (h0 ▸ ht)
    obtain ⟨tmpls, hI⟩ := loop_ok w.heap p.Templates hnn []
    have hI2 : mapFromTemplates w.heap p.Templates = .ok (tmpls, w.heap) := hI
    refine ⟨tmpls, hnn, hI2, ?_⟩
    by_cases hlen : p.Stages = []
    · left
      refine ⟨hlen, ?_⟩
      simp only [Compile.expand, hI2, hlen, List.length_nil, lt_irrefl, if_false]
    · right
      have hpos : 0 < p.Stages.length := List.length_pos.mpr hlen
      rcases hE : col.ExpandStages c.metadata u p.Stages tmpls w with ⟨⟨stages, _ | err⟩, w'⟩
      · right
        exact ⟨hlen, stages, w', rfl, by simp only [Compile.expand, hI2, hpos, if_true, hE]⟩
      · left
        exact ⟨hlen, stages, err, w', rfl, by simp only [Compile.expand, hI2, hpos, if_true, hE]⟩

/-- The five ways the first four phases of `Compile` end. -/
theorem compile_cases {σ : Type} (col : Collaborators σ) (c : Context) (w : World σ) :
    (∃ u err w1, col.GetUser c.repo.UserID w = ((u, some err), w1) ∧
      Compile col c w =
        { trace := [.GetUser c.repo.UserID (some err)]
          responses := [HandleError StatusBadRequest
            (Errorf ("unable to get owner for " ++ c.repo.FullName) err)]
          panic := none
          world := w1 }) ∨
    (∃ u w1 cfg err w2, col.GetUser c.repo.UserID w = ((u, none), w1) ∧
      col.ConfigBackoff u c.repo.Org c.repo.Name c.VLCM w1 = ((cfg, some err), w2) ∧
      Compile col c w =
        { trace := [.GetUser c.repo.UserID none,
            .ConfigBackoff u c.repo.Org c.repo.Name c.VLCM (some err)]
          responses :=
            [HandleError StatusNotFound (Errorf "unable to get pipeline configuration" err)]
          panic := none
          world := w2 }) ∨
    (∃ u w1 cfg w2 p err w3, col.GetUser c.repo.UserID w = ((u, none), w1) ∧
      col.ConfigBackoff u c.repo.Org c.repo.Name c.VLCM w1 = ((cfg, none), w2) ∧
      col.Parse c.metadata u cfg w2 = ((p, some err), w3) ∧
      Compile col c w =
        { trace := [.GetUser c.repo.UserID none,
            .ConfigBackoff u c.repo.Org c.repo.Name c.VLCM none, .Parse cfg (some err)]
          responses := [HandleError StatusInternalServerError
            (Errorf "unable to parse pipeline configuration" err)]
          panic := none
          world := w3 }) ∨
    (∃ u w1 cfg w2 p w3 err w4, col.GetUser c.repo.UserID w = ((u, none), w1) ∧
      col.ConfigBackoff u c.repo.Org c.repo.Name c.VLCM w1 = ((cfg, none), w2) ∧
      col.Parse c.metadata u cfg w2 = ((p, none), w3) ∧
      col.Validate c.metadata u p w3 = (some err, w4) ∧
      Compile col c w =
        { trace := [.GetUser c.repo.UserID none,
            .ConfigBackoff u c.repo.Org c.repo.Name c.VLCM none, .Parse cfg none,
            .Validate p (some err)]
          responses := [HandleError StatusInternalServerError
            (Errorf "unable to validate pipeline" err)]
          panic := none
          world := w4 }) ∨
    (∃ u w1 cfg w2 p w3 w4, col.GetUser c.repo.UserID w = ((u, none), w1) ∧
      col.ConfigBackoff u c.repo.Org c.repo.Name c.VLCM w1 = ((cfg, none), w2) ∧
      col.Parse c.metadata u cfg w2 = ((p, none), w3) ∧
      col.Validate c.metadata u p w3 = (none, w4) ∧
      Compile col c w =
        Compile.expand col c u p [.GetUser c.repo.UserID none,
          .ConfigBackoff u c.repo.Org c.repo.Name c.VLCM none, .Parse cfg none,
          .Validate p none] w4) := by
  rcases hU : col.GetUser c.repo.UserID w with ⟨⟨u, _ | eU⟩, w1⟩
  · rcases hC : col.ConfigBackoff u c.repo.Org c.repo.Name c.VLCM w1 with ⟨⟨cfg, _ | eC⟩, w2⟩
    · rcases hP : col.Parse c.metadata u cfg w2 with ⟨⟨p, _ | eP⟩, w3⟩
      · rcases hV : col.Validate c.metadata u p w3 with ⟨_ | eV, w4⟩
        · refine Or.inr (Or.inr (Or.inr (Or.inr ⟨u, w1, cfg, w2, p, w3, w4, rfl, hC, hP, hV, ?_⟩)))
          simp only [Compile, hU, hC, hP, hV]
        · refine Or.inr (Or.inr (Or.inr (Or.inl ⟨u, w1, cfg, w2, p, w3, eV, w4, rfl, hC, hP, hV, ?_⟩)))
          simp only [Compile, hU, hC, hP, hV]
      · refine Or.inr (Or.inr (Or.inl ⟨u, w1, cfg, w2, p, eP, w3, rfl, hC, hP, ?_⟩))
        simp only [Compile, hU, hC, hP]
    · refine Or.inr (Or.inl ⟨u, w1, cfg, eC, w2, rfl, hC, ?_⟩)
      simp only [Compile, hU, hC]
  · exact Or.inl ⟨u, eU, w1, rfl, by simp only [Compile, hU]⟩

/-- Every run of the handler is one of the ten runs of `Run`. -/
theorem compile_run {σ : Type} (col : Collaborators σ) (c : Context) (w : World σ) :
    Run col c w (Compile col c w) := by
  rcases compile_cases col c w with ⟨u, err, w1, hU, hrun⟩ | ⟨u, w1, cfg, err, w2, hU, hC, hrun⟩ |
    ⟨u, w1, cfg, w2, p, err, w3, hU, hC, hP, hrun⟩ |
    ⟨u, w1, cfg, w2, p, w3, err, w4, hU, hC, hP, hV, hrun⟩ |
    ⟨u, w1, cfg, w2, p, w3, w4, hU, hC, hP, hV, hrun⟩
  · rw [hrun]
    exact .ownerFailed u err w1 hU
  · rw [hrun]
    exact .configFailed u w1 cfg err w2 hU hC
  · rw [hrun]
    exact .parseFailed u w1 cfg w2 p err w3 hU hC hP
  · rw [hrun]
    exact .validateFailed u w1 cfg w2 p w3 err w4 hU hC hP hV
  · rw [hrun]
    rcases expand_cases col c u p [.GetUser c.repo.UserID none,
        .ConfigBackoff u c.repo.Org c.repo.Name c.VLCM none, .Parse cfg none,
        .Validate p none] w4 with
      ⟨hnil, hE⟩ | ⟨tmpls, hnn, hI, ⟨hS0, hE⟩ | ⟨hS1, stages, err, w5, hX, hE⟩ |
        ⟨hS1, stages, w5, hX, hE⟩⟩
    · rw [hE]
      exact .indexPanicked u w1 cfg w2 p w3 w4 hU hC hP hV hnil
    · rw [hE]
      rcases steps_cases col c u p tmpls _ w4 with ⟨steps, err, w6, hS, hT⟩ | ⟨steps, w6, hS, hT⟩
      · rw [hT]
        exact .stepsFailedNoStages u w1 cfg w2 p w3 w4 tmpls steps err w6 hU hC hP hV hnn hI hS0 hS
      · rw [hT]
        exact .doneNoStages u w1 cfg w2 p w3 w4 tmpls steps w6 hU hC hP hV hnn hI hS0 hS
    · rw [hE]
      exact .stagesFailed u w1 cfg w2 p w3 w4 tmpls stages err w5 hU hC hP hV hnn hI hS1 hX
    · rw [hE]
      rcases steps_cases col c u { p with Stages := stages } tmpls _ w5 with
        ⟨steps, err, w6, hS, hT⟩ | ⟨steps, w6, hS, hT⟩
      · rw [hT]
        exact .stepsFailed u w1 cfg w2 p w3 w4 tmpls stages w5 steps err w6 hU hC hP hV hnn hI
          hS1 hX hS
      · rw [hT]
        exact .done u w1 cfg w2 p w3 w4 tmpls stages w5 steps w6 hU hC hP hV hnn hI hS1 hX hS

/-- When no entry of a log before its last one satisfies `P`, an entry that
satisfies `P` is the last one. -/
theorem entry_last (P : Event → Prop) (t : List Event) (hgood : ∀ x ∈ t.dropLast, ¬ P x)
    (pre : List Event) (e : Event) (post : List Event) (ht : t = pre ++ e :: post)
    (he : P e) : post = [] ∧ pre = t.dropLast := by
  have hpost : post = [] := by
    by_contra hpost
    apply hgood e _ he
    rw [ht, List.dropLast_append_of_ne_nil _ (List.cons_ne_nil e post),
      List.dropLast_cons_of_ne_nil hpost]
    simp
  subst hpost
  refine ⟨rfl, ?_⟩
  rw [ht, List.dropLast_append_of_ne_nil _ (List.cons_ne_nil e [])]
  simp

/-- In a log whose entries before the last returned no error, nothing follows
an entry that returned one. -/
theorem err_last (t : List Event) (hgood : ∀ x ∈ t.dropLast, x.err = none)
    (pre : List Event) (e : Event) (post : List Event) (ht : t = pre ++ e :: post)
    (he : e.err ≠ none) : post = [] := by
  by_contra hpost
  apply he
  apply hgood
  rw [ht, List.dropLast_append_of_ne_nil _ (List.cons_ne_nil e post),
    List.dropLast_cons_of_ne_nil hpost]
  simp

theorem failed_iff_sig (t : List Event) (ph : Phase) :
    failed t ph ↔ (some ph, true) ∈ t.map Event.sig := by
  simp only [failed, List.mem_map, Event.sig, Prod.mk.injEq]
  constructor
  · rintro ⟨e, he, hph, herr⟩
    exact ⟨e, he, hph, by simpa [Option.isSome_iff_ne_none] using herr⟩
  · rintro ⟨e, he, hph, herr⟩
    exact ⟨e, he, hph, by simpa [Option.isSome_iff_ne_none] using herr⟩

theorem succeeded_iff_sig (t : List Event) (ph : Phase) :
    succeeded t ph ↔ (some ph, false) ∈ t.map Event.sig := by
  simp only [succeeded, List.mem_map, Event.sig, Prod.mk.injEq]
  constructor
  · rintro ⟨e, he, hph, herr⟩
    exact ⟨e, he, hph, by simp [herr]⟩
  · rintro ⟨e, he, hph, herr⟩
    exact ⟨e, he, hph, by simpa using herr⟩

theorem invoked_iff_sig (t : List Event) (ph : Phase) :
    invoked t ph ↔ (some ph, true) ∈ t.map Event.sig ∨ (some ph, false) ∈ t.map Event.sig := by
  rw [← failed_iff_sig, ← succeeded_iff_sig]
  simp only [invoked, failed, succeeded]
  constructor
  · rintro ⟨e, he, hph⟩
    by_cases herr : e.err = none
    · exact Or.inr ⟨e, he, hph, herr⟩
    · exact Or.inl ⟨e, he, hph, herr⟩
  · rintro (⟨e, he, hph, -⟩ | ⟨e, he, hph, -⟩) <;> exact ⟨e, he, hph⟩

set_option maxHeartbeats 1600000 in
/-- The log of the handler is the record of what the collaborators returned:
a call of phase `ph` with error value `r` is logged exactly when the
collaborator of `ph` returns `r` after the phases before it succeeded. -/
theorem logged_iff_returns {σ : Type} (col : Collaborators σ) (c : Context) (w : World σ)
    (ph : Phase) (r : Option GoError) :
    (∃ e ∈ (Compile col c w).trace, e.phase = some ph ∧ e.err = r) ↔
      phaseReturns col c w ph r := by
  have hr := compile_run col c w
  generalize Compile col c w = o at hr ⊢
  cases hr with
  | ownerFailed u err w1 hU =>
    cases ph <;>
      simp [phaseReturns, firstFour, stagesDone, Event.phase, Event.err, and_assoc, hU]
  | configFailed u w1 cfg err w2 hU hC =>
    cases ph <;>
      simp [phaseReturns, firstFour, stagesDone, Event.phase, Event.err, and_assoc, hU, hC]
  | parseFailed u w1 cfg w2 p err w3 hU hC hP =>
    cases ph <;>
      simp [phaseReturns, firstFour, stagesDone, Event.phase, Event.err, and_assoc, hU, hC, hP]
  | validateFailed u w1 cfg w2 p w3 err w4 hU hC hP hV =>
    cases ph <;>
      simp [phaseReturns, firstFour, stagesDone, Event.phase, Event.err, and_assoc, hU, hC, hP, hV]
  | indexPanicked u w1 cfg w2 p w3 w4 hU hC hP hV hnil =>
    have hI : mapFromTemplates w4.heap p.Templates = .error Panic.nilDereference :=
      loop_nil_entry p.Templates hnil _
    cases ph <;>
      simp [phaseReturns, firstFour, stagesDone, Event.phase, Event.err, and_assoc, hU, hC, hP, hV,
        hI]
  | stagesFailed u w1 cfg w2 p w3 w4 tmpls stages err w5 hU hC hP hV hnn hI hne hX =>
    cases ph <;>
      simp [phaseReturns, firstFour, stagesDone, Event.phase, Event.err, and_assoc, hU, hC, hP, hV, hI, hne, hX]
  | stepsFailed u w1 cfg w2 p w3 w4 tmpls stages w5 steps err w6 hU hC hP hV hnn hI hne hX hS =>
    cases ph <;>
      simp [phaseReturns, firstFour, stagesDone, Event.phase, Event.err, and_assoc, hU, hC, hP, hV, hI, hne,
        hX, hS]
  | stepsFailedNoStages u w1 cfg w2 p w3 w4 tmpls steps err w6 hU hC hP hV hnn hI hnil hS =>
    cases ph <;>
      simp [phaseReturns, firstFour, stagesDone, Event.phase, Event.err, and_assoc, hU, hC, hP, hV, hI, hnil,
        hS]
  | done u w1 cfg w2 p w3 w4 tmpls stages w5 steps w6 hU hC hP hV hnn hI hne hX hS =>
    cases ph <;>
      simp [phaseReturns, firstFour, stagesDone, Event.phase, Event.err, and_assoc, hU, hC, hP, hV, hI, hne,
        hX, hS]
  | doneNoStages u w1 cfg w2 p w3 w4 tmpls steps w6 hU hC hP hV hnn hI hnil hS =>
    cases ph <;>
      simp [phaseReturns, firstFour, stagesDone, Event.phase, Event.err, and_assoc, hU, hC, hP, hV, hI, hnil,
        hS]

/-! ## The handler -/

/-- C2. The handler stops at the first failure: when a phase returns an error,
no phase that comes later in the order owner lookup, configuration retrieval,
parse, validate, expand stages, expand steps is invoked in that run, and
nothing at all is logged after the failed call. -/
theorem compile_short_circuit {σ : Type} (col : Collaborators σ) (c : Context) (w : World σ)
    (ph1 ph2 : Phase) (hfail : failed (Compile col c w).trace ph1)
    (hlt : ph1.index < ph2.index) :
    ¬ invoked (Compile col c w).trace ph2 ∧
    ∀ pre e post, (Compile col c w).trace = pre ++ e :: post → e.err ≠ none → post = [] := by
  have hr := compile_run col c w
  revert hfail hlt
  rw [failed_iff_sig, invoked_iff_sig]
  generalize Compile col c w = o at hr ⊢
  intro hfail hlt
  constructor
  · revert ph1 ph2
    cases hr <;>
      simp only [List.map, Event.sig, Event.phase, Event.err, Option.isSome] <;> decide
  · cases hr <;> apply err_last <;> simp [Event.err]

theorem compile_short_circuit_witness :
    failed (Compile (double (some .Parse) demoDoc) demoContext demoWorld).trace .Parse ∧
    Phase.Parse.index < Phase.ExpandSteps.index ∧
    (¬ invoked (Compile (double (some .Parse) demoDoc) demoContext demoWorld).trace .ExpandSteps ∧
      ∀ pre e post,
        (Compile (double (some .Parse) demoDoc) demoContext demoWorld).trace = pre ++ e :: post →
        e.err ≠ none → post = []) :=
  ⟨by decide, by decide,
    compile_short_circuit (double (some .Parse) demoDoc) demoContext demoWorld .Parse .ExpandSteps
      (by decide) (by decide)⟩

/-- The document is written exactly when the log shows every phase succeeding,
and a logged failure leaves a single error response. -/
theorem document_iff_log {σ : Type} (col : Collaborators σ) (c : Context)
    (w : World σ) :
    ((∃ doc, (Compile col c w).responses = [.json StatusOK doc]) ↔
      (succeeded (Compile col c w).trace .GetUser ∧
        succeeded (Compile col c w).trace .ConfigBackoff ∧
        succeeded (Compile col c w).trace .Parse ∧
        succeeded (Compile col c w).trace .Validate ∧
        (invoked (Compile col c w).trace .ExpandStages →
          succeeded (Compile col c w).trace .ExpandStages) ∧
        succeeded (Compile col c w).trace .ExpandSteps)) ∧
    (∀ ph, failed (Compile col c w).trace ph →
      ∃ status err, (Compile col c w).responses = [.error status err]) ∧
    (∀ status doc, .json status doc ∈ (Compile col c w).responses →
      ∀ ph, ¬ failed (Compile col c w).trace ph) := by
  have hr := compile_run col c w
  simp only [failed_iff_sig, invoked_iff_sig, succeeded_iff_sig]
  generalize Compile col c w = o at hr ⊢
  cases hr <;>
    simp only [List.map, Event.sig, Event.phase, Event.err, Option.isSome, HandleError] <;>
    refine ⟨?_, ?_, ?_⟩ <;> simp

theorem succeeded_iff_returns {σ : Type} (col : Collaborators σ) (c : Context) (w : World σ)
    (ph : Phase) :
    succeeded (Compile col c w).trace ph ↔ phaseReturns col c w ph none :=
  logged_iff_returns col c w ph none

theorem failed_iff_returns {σ : Type} (col : Collaborators σ) (c : Context) (w : World σ)
    (ph : Phase) :
    failed (Compile col c w).trace ph ↔ ∃ err, phaseReturns col c w ph (some err) := by
  constructor
  · rintro ⟨e, he, hph, herr⟩
    cases hr : e.err with
    | none => exact absurd hr herr
    | some err => exact ⟨err, (logged_iff_returns col c w ph (some err)).mp ⟨e, he, hph, hr⟩⟩
  · rintro ⟨err, hret⟩
    obtain ⟨e, he, hph, herr⟩ := (logged_iff_returns col c w ph (some err)).mpr hret
    exact ⟨e, he, hph, by simp [herr]⟩

theorem invoked_iff_returns {σ : Type} (col : Collaborators σ) (c : Context) (w : World σ)
    (ph : Phase) :
    invoked (Compile col c w).trace ph ↔ ∃ r, phaseReturns col c w ph r := by
  constructor
  · rintro ⟨e, he, hph⟩
    exact ⟨e.err, (logged_iff_returns col c w ph e.err).mp ⟨e, he, hph, rfl⟩⟩
  · rintro ⟨r, hret⟩
    obtain ⟨e, he, hph, -⟩ := (logged_iff_returns col c w ph r).mpr hret
    exact ⟨e, he, hph⟩

/-- C3. The handler answers with a pipeline document, at status 200, exactly when
the collaborators of owner lookup, configuration retrieval, parse, validate,
stage expansion (when it is invoked) and step expansion all return no error,
each on the arguments the source gives it; when the collaborator of any phase
returns an error, the single response written is an error response and carries
no document. The log of the handler records exactly what the collaborators
returned, and the same holds read off the log. -/
theorem compile_document_iff_all_succeed {σ : Type} (col : Collaborators σ) (c : Context)
    (w : World σ) :
    ((∃ doc, (Compile col c w).responses = [.json StatusOK doc]) ↔
      (phaseReturns col c w .GetUser none ∧
        phaseReturns col c w .ConfigBackoff none ∧
        phaseReturns col c w .Parse none ∧
        phaseReturns col c w .Validate none ∧
        ((∃ r, phaseReturns col c w .ExpandStages r) →
          phaseReturns col c w .ExpandStages none) ∧
        phaseReturns col c w .ExpandSteps none)) ∧
    (∀ ph err, phaseReturns col c w ph (some err) →
      ∃ status err2, (Compile col c w).responses = [.error status err2]) ∧
    (∀ status doc, .json status doc ∈ (Compile col c w).responses →
      ∀ ph err, ¬ phaseReturns col c w ph (some err)) ∧
    (∀ ph r, (∃ e ∈ (Compile col c w).trace, e.phase = some ph ∧ e.err = r) ↔
      phaseReturns col c w ph r) ∧
    ((∃ doc, (Compile col c w).responses = [.json StatusOK doc]) ↔
      (succeeded (Compile col c w).trace .GetUser ∧
        succeeded (Compile col c w).trace .ConfigBackoff ∧
        succeeded (Compile col c w).trace .Parse ∧
        succeeded (Compile col c w).trace .Validate ∧
        (invoked (Compile col c w).trace .ExpandStages →
          succeeded (Compile col c w).trace .ExpandStages) ∧
        succeeded (Compile col c w).trace .ExpandSteps)) ∧
    (∀ ph, failed (Compile col c w).trace ph →
      ∃ status err, (Compile col c w).responses = [.error status err]) ∧
    (∀ status doc, .json status doc ∈ (Compile col c w).responses →
      ∀ ph, ¬ failed (Compile col c w).trace ph) := by
  obtain ⟨hdoc, hfail, hjson⟩ := document_iff_log col c w
  refine ⟨?_, ?_, ?_, fun ph r => logged_iff_returns col c w ph r, hdoc, hfail, hjson⟩
  · rw [hdoc]
    simp only [succeeded_iff_returns, invoked_iff_returns]
  · intro ph err hret
    exact hfail ph ((failed_iff_returns col c w ph).mpr ⟨err, hret⟩)
  · intro status doc hmem ph err hret
    exact hjson status doc hmem ph ((failed_iff_returns col c w ph).mpr ⟨err, hret⟩)

theorem compile_document_iff_all_succeed_witness :
    phaseReturns (double none demoDoc) demoContext demoWorld .ExpandSteps none ∧
    (∃ doc, (Compile (double none demoDoc) demoContext demoWorld).responses =
      [.json StatusOK doc]) ∧
    phaseReturns (double (some .ExpandStages) demoDoc) demoContext demoWorld .ExpandStages
      (some (.plain "boom")) ∧
    (∃ status err2, (Compile (double (some .ExpandStages) demoDoc) demoContext demoWorld).responses =
      [.error status err2]) :=
  have hfour : ∀ failing, failing = none ∨ failing = some Phase.ExpandStages →
      firstFour (double failing demoDoc) demoContext demoWorld ⟨7, "octocat"⟩ demoDoc
        { demoWorld with ext := 4 } := by
    intro failing hf
    rcases hf with rfl | rfl <;>
      exact ⟨{ demoWorld with ext := 1 }, [1, 2, 3], { demoWorld with ext := 2 },
        { demoWorld with ext := 3 }, rfl, rfl, rfl, rfl⟩
  have hX : phaseReturns (double none demoDoc) demoContext demoWorld .ExpandStages none :=
    ⟨⟨7, "octocat"⟩, demoDoc, { demoWorld with ext := 4 },
      [("build", some 1), ("deploy", some 2)], expandedDoc.Stages, { demoWorld with ext := 5 },
      hfour none (Or.inl rfl), rfl, by decide, rfl⟩
  have hS : phaseReturns (double none demoDoc) demoContext demoWorld .ExpandSteps none :=
    ⟨⟨7, "octocat"⟩, demoDoc, [("build", some 1), ("deploy", some 2)],
      { demoWorld with ext := 5 }, expandedDoc.Steps, { demoWorld with ext := 6 },
      ⟨{ demoWorld with ext := 4 }, hfour none (Or.inl rfl), rfl,
        Or.inr ⟨by decide, expandedDoc.Stages, rfl⟩⟩, rfl⟩
  have hF : phaseReturns (double (some .ExpandStages) demoDoc) demoContext demoWorld
      .ExpandStages (some (.plain "boom")) :=
    ⟨⟨7, "octocat"⟩, demoDoc, { demoWorld with ext := 4 },
      [("build", some 1), ("deploy", some 2)], expandedDoc.Stages, { demoWorld with ext := 5 },
      hfour _ (Or.inr rfl), rfl, by decide, rfl⟩
  ⟨hS,
    (compile_document_iff_all_succeed (double none demoDoc) demoContext demoWorld).1.mpr
      ⟨⟨⟨7, "octocat"⟩, { demoWorld with ext := 1 }, rfl⟩,
        ⟨⟨7, "octocat"⟩, { demoWorld with ext := 1 }, [1, 2, 3], { demoWorld with ext := 2 },
          rfl, rfl⟩,
        ⟨⟨7, "octocat"⟩, { demoWorld with ext := 1 }, [1, 2, 3], { demoWorld with ext := 2 },
          demoDoc, { demoWorld with ext := 3 }, rfl, rfl, rfl⟩,
        ⟨⟨7, "octocat"⟩, { demoWorld with ext := 1 }, [1, 2, 3], { demoWorld with ext := 2 },
          demoDoc, { demoWorld with ext := 3 }, { demoWorld with ext := 4 }, rfl, rfl, rfl, rfl⟩,
        fun _ => hX, hS⟩,
    hF,
    (compile_document_iff_all_succeed (double (some .ExpandStages) demoDoc) demoContext
      demoWorld).2.1 .ExpandStages (.plain "boom") hF⟩

/-- C4, as stated, fails: `Parse` returns a document whose template list holds
a nil entry and no phase fails; building the index panics, and the handler
reports no status at all, so not the status 200 of a run without failure. -/
theorem compile_status_counterexample :
    firstFailure (Compile (double none nilDoc) demoContext demoWorld).trace = none ∧
    (Compile (double none nilDoc) demoContext demoWorld).panic = some Panic.nilDereference ∧
    ¬ ∃ r ∈ (Compile (double none nilDoc) demoContext demoWorld).responses,
      r.status = statusFor (firstFailure (Compile (double none nilDoc) demoContext demoWorld).trace) := by
  decide

/-- C4, amended. When the template list handed to `mapFromTemplates` holds no
nil entry, the handler writes exactly one response and its status is fixed by
the first failing phase: 400 for owner lookup, 404 for configuration retrieval,
500 for parse, validate, expand stages and expand steps, and 200 when no phase
fails. -/
theorem compile_status {σ : Type} (col : Collaborators σ) (c : Context) (w : World σ)
    (hnn : ∀ ts, Event.mapFromTemplates ts ∈ (Compile col c w).trace → none ∉ ts) :
    ∃ r, (Compile col c w).responses = [r] ∧
      r.status = statusFor (firstFailure (Compile col c w).trace) ∧
      (r.status = 200 ∨ r.status = 400 ∨ r.status = 404 ∨ r.status = 500) := by
  have hr := compile_run col c w
  revert hnn
  generalize Compile col c w = o at hr ⊢
  intro hnn
  cases hr with
  | indexPanicked u w1 cfg w2 p w3 w4 hU hC hP hV hnil =>
    exact absurd hnil (hnn p.Templates (by simp))
  | _ =>
    simp [firstFailure, Event.err, Event.phase, statusFor, Response.status, HandleError,
      StatusOK, StatusBadRequest, StatusNotFound, StatusInternalServerError]

theorem compile_status_witness :
    (∀ ts, Event.mapFromTemplates ts ∈
        (Compile (double none demoDoc) demoContext demoWorld).trace → none ∉ ts) ∧
    ∃ r, (Compile (double none demoDoc) demoContext demoWorld).responses = [r] ∧
      r.status = statusFor
        (firstFailure (Compile (double none demoDoc) demoContext demoWorld).trace) ∧
      (r.status = 200 ∨ r.status = 400 ∨ r.status = 404 ∨ r.status = 500) :=
  have hnn : ∀ ts, Event.mapFromTemplates ts ∈
      (Compile (double none demoDoc) demoContext demoWorld).trace → none ∉ ts := by
    intro ts hts
    have hmem : Event.mapFromTemplates ts ∈
        indexBuilds (Compile (double none demoDoc) demoContext demoWorld).trace := by
      simp only [indexBuilds, List.mem_filter]
      exact ⟨hts, trivial⟩
    have hb : indexBuilds (Compile (double none demoDoc) demoContext demoWorld).trace =
        [.mapFromTemplates [some 1, some 2]] := by decide
    rw [hb] at hmem
    simp only [List.mem_singleton, Event.mapFromTemplates.injEq] at hmem
    subst hmem
    decide
  ⟨hnn, compile_status (double none demoDoc) demoContext demoWorld hnn⟩

/-- After four successful phases the handler goes on with `Compile.expand`. -/
theorem compile_eq_expand {σ : Type} (col : Collaborators σ) (c : Context) (w : World σ)
    (u : User) (w1 : World σ) (cfg : List Nat) (w2 : World σ) (p : Build) (w3 w4 : World σ)
    (hU : col.GetUser c.repo.UserID w = ((u, none), w1))
    (hC : col.ConfigBackoff u c.repo.Org c.repo.Name c.VLCM w1 = ((cfg, none), w2))
    (hP : col.Parse c.metadata u cfg w2 = ((p, none), w3))
    (hV : col.Validate c.metadata u p w3 = (none, w4)) :
    Compile col c w =
      Compile.expand col c u p [.GetUser c.repo.UserID none,
        .ConfigBackoff u c.repo.Org c.repo.Name c.VLCM none, .Parse cfg none,
        .Validate p none] w4 := by
  simp only [Compile, hU, hC, hP, hV]

/-- C5, as stated, fails: the first four phases succeed on a document with one
stage and a nil entry in its template list; building the index panics, so
`ExpandStages` is not invoked although the stage sequence is not empty, and
`ExpandSteps` is not invoked although stage expansion did not fail. -/
theorem compile_expansion_counterexample :
    succeeded (Compile (double none nilDoc) demoContext demoWorld).trace .GetUser ∧
    succeeded (Compile (double none nilDoc) demoContext demoWorld).trace .ConfigBackoff ∧
    succeeded (Compile (double none nilDoc) demoContext demoWorld).trace .Parse ∧
    succeeded (Compile (double none nilDoc) demoContext demoWorld).trace .Validate ∧
    nilDoc.Stages ≠ [] ∧
    ¬ invoked (Compile (double none nilDoc) demoContext demoWorld).trace .ExpandStages ∧
    ¬ failed (Compile (double none nilDoc) demoContext demoWorld).trace .ExpandStages ∧
    calls (Compile (double none nilDoc) demoContext demoWorld).trace .ExpandSteps = 0 := by
  decide

/-- C5, amended. When owner lookup, configuration retrieval, parse and validate
succeed and the template list of the parsed document `p` holds no nil entry:
`ExpandStages` is invoked exactly when `p.Stages` is not empty; with an empty
stage sequence no stage expansion fails and a document that is returned has the
stages as parsed; `ExpandSteps` is invoked exactly once when stage expansion
did not fail, whatever the step sequence; and the call of `ExpandSteps` is the
last entry of the log, after the call of `ExpandStages` when there are stages. -/
theorem compile_expansion_calls {σ : Type} (col : Collaborators σ) (c : Context) (w : World σ)
    (u : User) (w1 : World σ) (cfg : List Nat) (w2 : World σ) (p : Build) (w3 w4 : World σ)
    (hU : col.GetUser c.repo.UserID w = ((u, none), w1))
    (hC : col.ConfigBackoff u c.repo.Org c.repo.Name c.VLCM w1 = ((cfg, none), w2))
    (hP : col.Parse c.metadata u cfg w2 = ((p, none), w3))
    (hV : col.Validate c.metadata u p w3 = (none, w4))
    (hnn : ∀ t ∈ p.Templates, t ≠ none) :
    (invoked (Compile col c w).trace .ExpandStages ↔ p.Stages ≠ []) ∧
    calls (Compile col c w).trace .ExpandStages ≤ 1 ∧
    (p.Stages = [] → ¬ failed (Compile col c w).trace .ExpandStages ∧
      ∀ status doc, .json status doc ∈ (Compile col c w).responses → doc.Stages = p.Stages) ∧
    (¬ failed (Compile col c w).trace .ExpandStages →
      calls (Compile col c w).trace .ExpandSteps = 1) ∧
    (∀ pre e post, (Compile col c w).trace = pre ++ e :: post →
      e.phase = some .ExpandSteps → post = [] ∧ (p.Stages ≠ [] → invoked pre .ExpandStages)) := by
  rw [compile_eq_expand col c w u w1 cfg w2 p w3 w4 hU hC hP hV]
  rcases expand_cases col c u p [.GetUser c.repo.UserID none,
      .ConfigBackoff u c.repo.Org c.repo.Name c.VLCM none, .Parse cfg none,
      .Validate p none] w4 with
    ⟨hnil, -⟩ | ⟨tmpls, -, hI, ⟨hS0, hE⟩ | ⟨hS1, stages, err, w5, hX, hE⟩ |
      ⟨hS1, stages, w5, hX, hE⟩⟩
  · exact absurd rfl (hnn none hnil)
  · rw [hE]
    rcases steps_cases col c u p tmpls _ w4 with ⟨steps, err, w6, hS, hT⟩ | ⟨steps, w6, hS, hT⟩
    all_goals
      rw [hT]
      refine ⟨?_, ?_, ?_, ?_, ?_⟩
      · simp [invoked_iff_sig, Event.sig, Event.phase, hS0]
      · simp [calls, Event.phase]
      · intro _
        simp [failed_iff_sig, Event.sig, Event.phase, hS0, HandleError]
      · intro _
        simp [calls, Event.phase]
      · intro pre e post ht he
        obtain ⟨hpost, -⟩ := entry_last (fun x => x.phase = some .ExpandSteps) _
          (by simp [Event.phase]) pre e post ht he
        exact ⟨hpost, fun h1 => absurd hS0 h1⟩
  · rw [hE]
    refine ⟨?_, ?_, ?_, ?_, ?_⟩
    · simp [invoked_iff_sig, Event.sig, Event.phase, Event.err, hS1]
    · simp [calls, Event.phase]
    · intro h0
      exact absurd h0 hS1
    · intro hnf
      exact absurd (by simp [failed_iff_sig, Event.sig, Event.phase, Event.err]) hnf
    · intro pre e post ht he
      have hmem : e ∈ pre ++ e :: post := by simp
      rw [← ht] at hmem
      simp only [List.cons_append, List.nil_append, List.mem_cons, List.mem_singleton,
        List.not_mem_nil, or_false] at hmem
      rcases hmem with h | h | h | h | h | h <;> simp [h, Event.phase] at he
  · rw [hE]
    rcases steps_cases col c u { p with Stages := stages } tmpls _ w5 with
      ⟨steps, err, w6, hS, hT⟩ | ⟨steps, w6, hS, hT⟩
    all_goals
      rw [hT]
      refine ⟨?_, ?_, ?_, ?_, ?_⟩
      · simp [invoked_iff_sig, Event.sig, Event.phase, Event.err, hS1]
      · simp [calls, Event.phase]
      · intro h0
        exact absurd h0 hS1
      · intro _
        simp [calls, Event.phase]
      · intro pre e post ht he
        obtain ⟨hpost, hpre⟩ := entry_last (fun x => x.phase = some .ExpandSteps) _
          (by simp [Event.phase]) pre e post ht he
        refine ⟨hpost, fun _ => ?_⟩
        rw [hpre]
        simp [invoked, Event.phase]

theorem compile_expansion_calls_witness :
    (double none stagelessDoc).GetUser demoContext.repo.UserID demoWorld =
      ((⟨7, "octocat"⟩, none), { demoWorld with ext := 1 }) ∧
    (∀ t ∈ stagelessDoc.Templates, t ≠ none) ∧
    ¬ invoked (Compile (double none stagelessDoc) demoContext demoWorld).trace .ExpandStages ∧
    calls (Compile (double none stagelessDoc) demoContext demoWorld).trace .ExpandSteps = 1 :=
  have h := compile_expansion_calls (double none stagelessDoc) demoContext demoWorld
    ⟨7, "octocat"⟩ { demoWorld with ext := 1 } [1, 2, 3] { demoWorld with ext := 2 }
    stagelessDoc { demoWorld with ext := 3 } { demoWorld with ext := 4 } rfl rfl rfl rfl
    (by decide)
  ⟨rfl, by decide, fun hinv => (h.1.mp hinv) rfl, h.2.2.2.1 (h.2.2.1 rfl).1⟩

/-- What the log says of the index: one call of `mapFromTemplates`, and every
logged call of an expander carries the map that call returns. -/
theorem index_once_log {σ : Type} (col : Collaborators σ) (c : Context) (w : World σ)
    (u : User) (w1 : World σ) (cfg : List Nat) (w2 : World σ) (p : Build) (w3 w4 : World σ)
    (hU : col.GetUser c.repo.UserID w = ((u, none), w1))
    (hC : col.ConfigBackoff u c.repo.Org c.repo.Name c.VLCM w1 = ((cfg, none), w2))
    (hP : col.Parse c.metadata u cfg w2 = ((p, none), w3))
    (hV : col.Validate c.metadata u p w3 = (none, w4)) :
    indexBuilds (Compile col c w).trace = [.mapFromTemplates p.Templates] ∧
    (∀ stages m err, .ExpandStages stages m err ∈ (Compile col c w).trace →
      mapFromTemplates w4.heap p.Templates = .ok (m, w4.heap)) ∧
    (∀ steps m err, .ExpandSteps steps m err ∈ (Compile col c w).trace →
      mapFromTemplates w4.heap p.Templates = .ok (m, w4.heap)) ∧
    (∀ stages m1 err1 steps m2 err2, .ExpandStages stages m1 err1 ∈ (Compile col c w).trace →
      .ExpandSteps steps m2 err2 ∈ (Compile col c w).trace → m1 = m2) := by
  rw [compile_eq_expand col c w u w1 cfg w2 p w3 w4 hU hC hP hV]
  rcases expand_cases col c u p [.GetUser c.repo.UserID none,
      .ConfigBackoff u c.repo.Org c.repo.Name c.VLCM none, .Parse cfg none,
      .Validate p none] w4 with
    ⟨hnil, hE⟩ | ⟨tmpls, -, hI, ⟨hS0, hE⟩ | ⟨hS1, stages, err, w5, hX, hE⟩ |
      ⟨hS1, stages, w5, hX, hE⟩⟩
  · rw [hE]
    simp [indexBuilds]
  · rw [hE]
    rcases steps_cases col c u p tmpls _ w4 with ⟨steps, err, w6, hS, hT⟩ | ⟨steps, w6, hS, hT⟩
    all_goals
      rw [hT]
      refine ⟨by simp [indexBuilds], ?_, ?_, ?_⟩
      · intro a m e hmem
        simp at hmem
      · intro a m e hmem
        simp at hmem
        obtain ⟨-, rfl, -⟩ := hmem
        exact hI
      · intro a m1 e1 b m2 e2 h1 h2
        simp at h1
  · rw [hE]
    refine ⟨by simp [indexBuilds], ?_, ?_, ?_⟩
    · intro a m e hmem
      simp at hmem
      obtain ⟨-, rfl, -⟩ := hmem
      exact hI
    · intro a m e hmem
      simp at hmem
    · intro a m1 e1 b m2 e2 h1 h2
      simp at h2
  · rw [hE]
    rcases steps_cases col c u { p with Stages := stages } tmpls _ w5 with
      ⟨steps, err, w6, hS, hT⟩ | ⟨steps, w6, hS, hT⟩
    all_goals
      rw [hT]
      refine ⟨by simp [indexBuilds], ?_, ?_, ?_⟩
      · intro a m e hmem
        simp at hmem
        obtain ⟨-, rfl, -⟩ := hmem
        exact hI
      · intro a m e hmem
        simp at hmem
        obtain ⟨-, rfl, -⟩ := hmem
        exact hI
      · intro a m1 e1 b m2 e2 h1 h2
        simp at h1 h2
        obtain ⟨-, rfl, -⟩ := h1
        obtain ⟨-, rfl, -⟩ := h2
        rfl

/-- The index is handed on: once `mapFromTemplates` has returned `tmpls`, the
handler calls `ExpandStages` on it when there are stages, and `ExpandSteps` on
it when stage expansion did not fail. -/
theorem index_handed {σ : Type} (col : Collaborators σ) (c : Context) (w : World σ)
    (u : User) (w1 : World σ) (cfg : List Nat) (w2 : World σ) (p : Build) (w3 w4 : World σ)
    (hU : col.GetUser c.repo.UserID w = ((u, none), w1))
    (hC : col.ConfigBackoff u c.repo.Org c.repo.Name c.VLCM w1 = ((cfg, none), w2))
    (hP : col.Parse c.metadata u cfg w2 = ((p, none), w3))
    (hV : col.Validate c.metadata u p w3 = (none, w4))
    (tmpls : TemplateMap) (hI : mapFromTemplates w4.heap p.Templates = .ok (tmpls, w4.heap)) :
    (p.Stages ≠ [] → ∃ stages err w5,
        col.ExpandStages c.metadata u p.Stages tmpls w4 = ((stages, err), w5) ∧
        Event.ExpandStages p.Stages tmpls err ∈ (Compile col c w).trace ∧
        (err = none → ∃ steps err2 w6,
          col.ExpandSteps c.metadata u p.Steps tmpls w5 = ((steps, err2), w6) ∧
          Event.ExpandSteps p.Steps tmpls err2 ∈ (Compile col c w).trace)) ∧
      (p.Stages = [] → ∃ steps err2 w6,
        col.ExpandSteps c.metadata u p.Steps tmpls w4 = ((steps, err2), w6) ∧
        Event.ExpandSteps p.Steps tmpls err2 ∈ (Compile col c w).trace) := by
  rw [compile_eq_expand col c w u w1 cfg w2 p w3 w4 hU hC hP hV]
  rcases expand_cases col c u p [.GetUser c.repo.UserID none,
      .ConfigBackoff u c.repo.Org c.repo.Name c.VLCM none, .Parse cfg none,
      .Validate p none] w4 with
    ⟨hnil, -⟩ | ⟨tmpls0, -, hI0, ⟨hS0, hE⟩ | ⟨hS1, stages, err, w5, hX, hE⟩ |
      ⟨hS1, stages, w5, hX, hE⟩⟩
  · have hpanic : mapFromTemplates w4.heap p.Templates = .error Panic.nilDereference :=
      loop_nil_entry p.Templates hnil _
    rw [hpanic] at hI
    cases hI
  · have ht : tmpls0 = tmpls := by
      rw [hI0] at hI
      simpa using hI
    subst ht
    rw [hE]
    refine ⟨fun hne => absurd hS0 hne, fun _ => ?_⟩
    rcases steps_cases col c u p tmpls0 _ w4 with ⟨steps, err, w6, hS, hT⟩ | ⟨steps, w6, hS, hT⟩
    · rw [hT]
      exact ⟨steps, some err, w6, hS, by simp⟩
    · rw [hT]
      exact ⟨steps, none, w6, hS, by simp⟩
  · have ht : tmpls0 = tmpls := by
      rw [hI0] at hI
      simpa using hI
    subst ht
    rw [hE]
    refine ⟨fun _ => ⟨stages, some err, w5, hX, by simp, fun h => by cases h⟩,
      fun h0 => absurd h0 hS1⟩
  · have ht : tmpls0 = tmpls := by
      rw [hI0] at hI
      simpa using hI
    subst ht
    rw [hE]
    refine ⟨fun _ => ?_, fun h0 => absurd h0 hS1⟩
    rcases steps_cases col c u { p with Stages := stages } tmpls0 _ w5 with
      ⟨steps, err, w6, hS, hT⟩ | ⟨steps, w6, hS, hT⟩
    · rw [hT]
      exact ⟨stages, none, w5, hX, by simp, fun _ => ⟨steps, some err, w6, hS, by simp⟩⟩
    · rw [hT]
      exact ⟨stages, none, w5, hX, by simp, fun _ => ⟨steps, none, w6, hS, by simp⟩⟩

/-- C6. In a run in which owner lookup, configuration retrieval, parse and
validate succeed, `mapFromTemplates` is called exactly once, on the templates
of the parsed document `p`, and it returns an index when no template entry is
nil. The handler hands that index on: with `tmpls` the map `mapFromTemplates`
returns on `p.Templates`, it calls `ExpandStages` on `p.Stages` and `tmpls`
when there are stages, and `ExpandSteps` on `p.Steps` and `tmpls` when stage
expansion did not fail, and the log holds these calls with the errors the
collaborators returned. Every logged call of an expander carries that map, so
both expanders receive the same map. -/
theorem compile_index_once {σ : Type} (col : Collaborators σ) (c : Context) (w : World σ)
    (u : User) (w1 : World σ) (cfg : List Nat) (w2 : World σ) (p : Build) (w3 w4 : World σ)
    (hU : col.GetUser c.repo.UserID w = ((u, none), w1))
    (hC : col.ConfigBackoff u c.repo.Org c.repo.Name c.VLCM w1 = ((cfg, none), w2))
    (hP : col.Parse c.metadata u cfg w2 = ((p, none), w3))
    (hV : col.Validate c.metadata u p w3 = (none, w4)) :
    indexBuilds (Compile col c w).trace = [.mapFromTemplates p.Templates] ∧
    ((∀ t ∈ p.Templates, t ≠ none) →
      ∃ tmpls, mapFromTemplates w4.heap p.Templates = .ok (tmpls, w4.heap)) ∧
    (∀ tmpls, mapFromTemplates w4.heap p.Templates = .ok (tmpls, w4.heap) →
      (p.Stages ≠ [] → ∃ stages err w5,
        col.ExpandStages c.metadata u p.Stages tmpls w4 = ((stages, err), w5) ∧
        Event.ExpandStages p.Stages tmpls err ∈ (Compile col c w).trace ∧
        (err = none → ∃ steps err2 w6,
          col.ExpandSteps c.metadata u p.Steps tmpls w5 = ((steps, err2), w6) ∧
          Event.ExpandSteps p.Steps tmpls err2 ∈ (Compile col c w).trace)) ∧
      (p.Stages = [] → ∃ steps err2 w6,
        col.ExpandSteps c.metadata u p.Steps tmpls w4 = ((steps, err2), w6) ∧
        Event.ExpandSteps p.Steps tmpls err2 ∈ (Compile col c w).trace)) ∧
    (∀ stages m err, .ExpandStages stages m err ∈ (Compile col c w).trace →
      mapFromTemplates w4.heap p.Templates = .ok (m, w4.heap)) ∧
    (∀ steps m err, .ExpandSteps steps m err ∈ (Compile col c w).trace →
      mapFromTemplates w4.heap p.Templates = .ok (m, w4.heap)) ∧
    (∀ stages m1 err1 steps m2 err2, .ExpandStages stages m1 err1 ∈ (Compile col c w).trace →
      .ExpandSteps steps m2 err2 ∈ (Compile col c w).trace → m1 = m2) := by
  obtain ⟨hbuilds, hstages, hsteps, hsame⟩ :=
    index_once_log col c w u w1 cfg w2 p w3 w4 hU hC hP hV
  exact ⟨hbuilds, fun hnn => loop_ok w4.heap p.Templates hnn [],
    fun tmpls hI => index_handed col c w u w1 cfg w2 p w3 w4 hU hC hP hV tmpls hI,
    hstages, hsteps, hsame⟩

theorem compile_index_once_witness :
    (double none demoDoc).Validate demoContext.metadata ⟨7, "octocat"⟩ demoDoc
      { demoWorld with ext := 3 } = (none, { demoWorld with ext := 4 }) ∧
    mapFromTemplates demoHeap demoDoc.Templates =
      .ok ([("build", some 1), ("deploy", some 2)], demoHeap) ∧
    indexBuilds (Compile (double none demoDoc) demoContext demoWorld).trace =
      [.mapFromTemplates [some 1, some 2]] ∧
    (∃ stages err w5,
      (double none demoDoc).ExpandStages demoContext.metadata ⟨7, "octocat"⟩ demoDoc.Stages
        [("build", some 1), ("deploy", some 2)] { demoWorld with ext := 4 } =
        ((stages, err), w5) ∧
      Event.ExpandStages demoDoc.Stages [("build", some 1), ("deploy", some 2)] err ∈
        (Compile (double none demoDoc) demoContext demoWorld).trace ∧
      (err = none → ∃ steps err2 w6,
        (double none demoDoc).ExpandSteps demoContext.metadata ⟨7, "octocat"⟩ demoDoc.Steps
          [("build", some 1), ("deploy", some 2)] w5 = ((steps, err2), w6) ∧
        Event.ExpandSteps demoDoc.Steps [("build", some 1), ("deploy", some 2)] err2 ∈
          (Compile (double none demoDoc) demoContext demoWorld).trace)) ∧
    (∀ stages m1 err1 steps m2 err2,
      .ExpandStages stages m1 err1 ∈ (Compile (double none demoDoc) demoContext demoWorld).trace →
      .ExpandSteps steps m2 err2 ∈ (Compile (double none demoDoc) demoContext demoWorld).trace →
      m1 = m2) :=
  have h := compile_index_once (double none demoDoc) demoContext demoWorld
    ⟨7, "octocat"⟩ { demoWorld with ext := 1 } [1, 2, 3] { demoWorld with ext := 2 }
    demoDoc { demoWorld with ext := 3 } { demoWorld with ext := 4 } rfl rfl rfl rfl
  ⟨rfl, rfl, h.1, (h.2.2.1 [("build", some 1), ("deploy", some 2)] rfl).1 (by decide),
    h.2.2.2.2.2⟩

/-- C10. When the handler answers with a document `doc` after `Parse` returned
`p`: `doc` is `p` with two fields replaced. Its stages are what `ExpandStages`
returned on `p.Stages` and the index when `p.Stages` is not empty, and are
`p.Stages` when it is empty; its steps are what `ExpandSteps` returned on the
steps as parsed, `p.Steps`, and the same index; version, metadata and template
list are those of `p`. -/
theorem compile_document_frame {σ : Type} (col : Collaborators σ) (c : Context) (w : World σ)
    (u : User) (w1 : World σ) (cfg : List Nat) (w2 : World σ) (p : Build) (w3 w4 : World σ)
    (hU : col.GetUser c.repo.UserID w = ((u, none), w1))
    (hC : col.ConfigBackoff u c.repo.Org c.repo.Name c.VLCM w1 = ((cfg, none), w2))
    (hP : col.Parse c.metadata u cfg w2 = ((p, none), w3))
    (hV : col.Validate c.metadata u p w3 = (none, w4))
    (status : Nat) (doc : Build)
    (hresp : Response.json status doc ∈ (Compile col c w).responses) :
    ∃ tmpls, mapFromTemplates w4.heap p.Templates = .ok (tmpls, w4.heap) ∧
      status = StatusOK ∧
      (Compile col c w).responses = [.json StatusOK doc] ∧
      doc.Version = p.Version ∧ doc.Metadata = p.Metadata ∧ doc.Templates = p.Templates ∧
      Event.ExpandSteps p.Steps tmpls none ∈ (Compile col c w).trace ∧
      ((p.Stages = [] ∧ doc.Stages = p.Stages ∧
          ∃ w6, col.ExpandSteps c.metadata u p.Steps tmpls w4 = ((doc.Steps, none), w6)) ∨
        (p.Stages ≠ [] ∧ ∃ w5 w6,
          col.ExpandStages c.metadata u p.Stages tmpls w4 = ((doc.Stages, none), w5) ∧
          col.ExpandSteps c.metadata u p.Steps tmpls w5 = ((doc.Steps, none), w6))) := by
  rw [compile_eq_expand col c w u w1 cfg w2 p w3 w4 hU hC hP hV] at hresp ⊢
  rcases expand_cases col c u p [.GetUser c.repo.UserID none,
      .ConfigBackoff u c.repo.Org c.repo.Name c.VLCM none, .Parse cfg none,
      .Validate p none] w4 with
    ⟨hnil, hE⟩ | ⟨tmpls, -, hI, ⟨hS0, hE⟩ | ⟨hS1, stages, err, w5, hX, hE⟩ |
      ⟨hS1, stages, w5, hX, hE⟩⟩
  · rw [hE] at hresp
    simp at hresp
  · rw [hE] at hresp ⊢
    rcases steps_cases col c u p tmpls _ w4 with ⟨steps, err, w6, hS, hT⟩ | ⟨steps, w6, hS, hT⟩
    · rw [hT] at hresp
      simp [HandleError] at hresp
    · rw [hT] at hresp ⊢
      simp only [List.mem_singleton, Response.json.injEq] at hresp
      obtain ⟨hst, hdoc⟩ := hresp
      subst hst hdoc
      exact ⟨tmpls, hI, rfl, rfl, rfl, rfl, rfl, by simp, Or.inl ⟨hS0, rfl, w6, hS⟩⟩
  · rw [hE] at hresp
    simp [HandleError] at hresp
  · rw [hE] at hresp ⊢
    rcases steps_cases col c u { p with Stages := stages } tmpls _ w5 with
      ⟨steps, err, w6, hS, hT⟩ | ⟨steps, w6, hS, hT⟩
    · rw [hT] at hresp
      simp [HandleError] at hresp
    · rw [hT] at hresp ⊢
      simp only [List.mem_singleton, Response.json.injEq] at hresp
      obtain ⟨hst, hdoc⟩ := hresp
      subst hst hdoc
      exact ⟨tmpls, hI, rfl, rfl, rfl, rfl, rfl, by simp, Or.inr ⟨hS1, w5, w6, hX, hS⟩⟩

theorem compile_document_frame_witness :
    Response.json 200 expandedDoc ∈
      (Compile (double none demoDoc) demoContext demoWorld).responses ∧
    ∃ tmpls, mapFromTemplates demoHeap demoDoc.Templates = .ok (tmpls, demoHeap) ∧
      200 = StatusOK ∧
      (Compile (double none demoDoc) demoContext demoWorld).responses =
        [.json StatusOK expandedDoc] ∧
      expandedDoc.Version = demoDoc.Version ∧ expandedDoc.Metadata = demoDoc.Metadata ∧
      expandedDoc.Templates = demoDoc.Templates ∧
      Event.ExpandSteps demoDoc.Steps tmpls none ∈
        (Compile (double none demoDoc) demoContext demoWorld).trace ∧
      ((demoDoc.Stages = [] ∧ expandedDoc.Stages = demoDoc.Stages ∧
          ∃ w6, (double none demoDoc).ExpandSteps demoContext.metadata ⟨7, "octocat"⟩
            demoDoc.Steps tmpls { demoWorld with ext := 4 } = ((expandedDoc.Steps, none), w6)) ∨
        (demoDoc.Stages ≠ [] ∧ ∃ w5 w6,
          (double none demoDoc).ExpandStages demoContext.metadata ⟨7, "octocat"⟩
            demoDoc.Stages tmpls { demoWorld with ext := 4 } = ((expandedDoc.Stages, none), w5) ∧
          (double none demoDoc).ExpandSteps demoContext.metadata ⟨7, "octocat"⟩
            demoDoc.Steps tmpls w5 = ((expandedDoc.Steps, none), w6))) :=
  ⟨by decide, compile_document_frame (double none demoDoc) demoContext demoWorld
    ⟨7, "octocat"⟩ { demoWorld with ext := 1 } [1, 2, 3] { demoWorld with ext := 2 }
    demoDoc { demoWorld with ext := 3 } { demoWorld with ext := 4 } rfl rfl rfl rfl
    200 expandedDoc (by decide)⟩

/-! ## Error messages -/

/-- The first twenty characters of a message that starts with the prefix of a
phase do not depend on the repository name or on what follows the prefix. -/
theorem label_key (fullName : String) (ph : Phase) (rest : String) :
    (phaseLabel fullName ph ++ rest).data.take 20 = (phaseLabel "" ph).data.take 20 := by
  cases ph <;> rfl

theorem label_key_injective (ph1 ph2 : Phase)
    (h : (phaseLabel "" ph1).data.take 20 = (phaseLabel "" ph2).data.take 20) : ph1 = ph2 := by
  revert h
  cases ph1 <;> cases ph2 <;> decide

theorem errorf_error (pre : String) (err : GoError) :
    (Errorf pre err).Error = pre ++ (": " ++ err.Error) := by
  simp [Errorf, GoError.Error, String.append_assoc]

/-- The phase is determined by the message of the reported error. -/
theorem message_phase (name1 name2 : String) (ph1 ph2 : Phase) (err1 err2 : GoError)
    (h : (Errorf (phaseLabel name1 ph1) err1).Error =
      (Errorf (phaseLabel name2 ph2) err2).Error) : ph1 = ph2 := by
  rw [errorf_error, errorf_error] at h
  have hkey := congrArg (fun s : String => s.data.take 20) h
  simp only [label_key] at hkey
  exact label_key_injective ph1 ph2 hkey

theorem label_phase (name1 name2 : String) (ph1 ph2 : Phase)
    (h : phaseLabel name1 ph1 = phaseLabel name2 ph2) : ph1 = ph2 := by
  have hkey := congrArg (fun s : String => (s ++ "").data.take 20) h
  simp only [label_key] at hkey
  exact label_key_injective ph1 ph2 hkey

/-- C8. When a call of phase `ph` returns the error `err`, the handler reports
exactly one error: `err` wrapped by `fmt.Errorf` under the prefix of that
phase. The wrapped error is `err` itself, the message is the prefix, a colon
and the message of `err`, and the prefix and the message both determine the
phase: no other phase, for any repository name and any error, has the same
prefix or yields the same message. -/
theorem compile_error_wrapped {σ : Type} (col : Collaborators σ) (c : Context) (w : World σ)
    (ph : Phase) (e : Event) (err : GoError) (he : e ∈ (Compile col c w).trace)
    (hph : e.phase = some ph) (herr : e.err = some err) :
    (∃ status, (Compile col c w).responses =
      [.error status (Errorf (phaseLabel c.repo.FullName ph) err)]) ∧
    (Errorf (phaseLabel c.repo.FullName ph) err).Unwrap = some err ∧
    (Errorf (phaseLabel c.repo.FullName ph) err).Error =
      phaseLabel c.repo.FullName ph ++ ": " ++ err.Error ∧
    (∀ name2 ph2, phaseLabel name2 ph2 = phaseLabel c.repo.FullName ph → ph2 = ph) ∧
    (∀ name2 ph2 err2, (Errorf (phaseLabel name2 ph2) err2).Error =
      (Errorf (phaseLabel c.repo.FullName ph) err).Error → ph2 = ph) := by
  refine ⟨?_, rfl, rfl, fun name2 ph2 h => label_phase _ _ _ _ h,
    fun name2 ph2 err2 h => message_phase _ _ _ _ _ _ h⟩
  have hr := compile_run col c w
  revert e
  generalize Compile col c w = o at hr ⊢
  cases hr <;> simp [Event.phase, Event.err, HandleError] <;>
    (intro h1 h2; subst h1 h2; rfl)

theorem compile_error_wrapped_witness :
    Event.Validate demoDoc (some (.plain "boom")) ∈
      (Compile (double (some .Validate) demoDoc) demoContext demoWorld).trace ∧
    (∃ status, (Compile (double (some .Validate) demoDoc) demoContext demoWorld).responses =
      [.error status (Errorf (phaseLabel demoContext.repo.FullName .Validate) (.plain "boom"))]) ∧
    (Errorf (phaseLabel demoContext.repo.FullName .Validate) (.plain "boom")).Error =
      "unable to validate pipeline: boom" :=
  have h := compile_error_wrapped (double (some .Validate) demoDoc) demoContext demoWorld
    .Validate (.Validate demoDoc (some (.plain "boom"))) (.plain "boom") (by decide) rfl rfl
  ⟨by decide, h.1, by decide⟩

end Vela
